import Mathlib

/-!
Verification of the systrace supervisor core (syscall interception,
patching and tracee control) against its natural-language specification.

The Rust sources are shallowly embedded: u64/usize/i32 values are
modelled as `Nat` (with explicit `% 2 ^ 64` where wrap-around matters,
matching release-mode wrapping semantics), i64 values as `Int`, fallible
operations as `Option`/`Except`, and the effects of the ptrace/kernel
boundary as explicit oracle records whose fields carry the outcome of
each external call.  Definitions follow the source files
`src/traced_task.rs`, `src/proc.rs`, `src/hooks.rs` and
`syscalls/src/helper.rs`; components of the repository whose source file
is not available (the per-site lock table, the task-state enum carrier,
stub-layout constants) are modelled from the specification and marked as
such in their doc comments.
-/

/-! ## Remote memory I/O: `poke_bytes`, word-granular path
    (src/traced_task.rs, `impl Remote for TracedTask::poke_bytes`). -/

/-- Mask table from `poke_bytes`: for a write of `k` bytes the entry
`masks[k-1]` is AND-ed onto the original word before the new bytes are
OR-ed in. -/
def pokeMasks : List Nat :=
  [ 0xffffffffffffff00,
    0xffffffffffff0000,
    0xffffffffff000000,
    0xffffffff00000000,
    0xffffff0000000000,
    0xffff000000000000,
    0xff00000000000000,
    0x0000000000000000 ]

/-- The `for k in 0..size { u64_val |= bytes[k] << (k*8) }` loop of
`poke_bytes`, folding the new bytes into the masked word in
little-endian order starting at byte position `j`. -/
def orBytes (acc : Nat) (bs : List Nat) (j : Nat) : Nat :=
  match bs with
  | [] => acc
  | b :: rest => orBytes (acc ||| b <<< (8 * j)) rest (j + 1)

/-- Word-granular write path of `poke_bytes` (size ≤ 8): read-modify-write
of the containing word.  `orig` is the word read by `ptrace::read` (used
only when `size < 8`, matching the source), the result is the word passed
to `ptrace::write`. -/
def pokeWord (orig : Nat) (bytes : List Nat) : Nat :=
  let size := bytes.length
  let u0 := if size < 8 then orig else 0
  let u1 := u0 &&& pokeMasks.getD (size - 1) 0
  orBytes u1 bytes 0

/-- Little-endian value of a byte list (the mathematical reading used by
the specification: new bytes occupy the lower `k` bytes). -/
def leVal (bs : List Nat) : Nat :=
  match bs with
  | [] => 0
  | b :: rest => b + 256 * leVal rest

/-! ## Hook catalog and pattern matching
    (src/hooks.rs `SYSCALL_HOOKS`, src/traced_task.rs `find_syscall_hook`). -/

/-- Hook entry of the static catalog (src/hooks.rs `SyscallPatchHook`). -/
structure SyscallPatchHook where
  is_multi : Bool
  instructions : List Nat
  symbol : String
deriving DecidableEq

/-- The static hook catalog, transcribed byte for byte from
src/hooks.rs. -/
def SYSCALL_HOOKS : List SyscallPatchHook :=
  [ { is_multi := false,
      instructions := [0x48, 0x3d, 0x01, 0xf0, 0xff, 0xff],
      symbol := "_syscall_hook_trampoline_48_3d_01_f0_ff_ff" },
    { is_multi := false,
      instructions := [0x48, 0x3d, 0x00, 0xf0, 0xff, 0xff],
      symbol := "_syscall_hook_trampoline_48_3d_00_f0_ff_ff" },
    { is_multi := false,
      instructions := [0x48, 0x8b, 0x3c, 0x24],
      symbol := "_syscall_hook_trampoline_48_8b_3c_24" },
    { is_multi := true,
      instructions := [0x5a, 0x5e, 0xc3],
      symbol := "_syscall_hook_trampoline_5a_5e_c3" },
    { is_multi := true,
      instructions := [0x89, 0xc2, 0xf7, 0xda],
      symbol := "_syscall_hook_trampoline_89_c2_f7_da" },
    { is_multi := true,
      instructions := [0x90, 0x90, 0x90],
      symbol := "_syscall_hook_trampoline_90_90_90" },
    { is_multi := false,
      instructions := [0xba, 0x01, 0x00, 0x00, 0x00],
      symbol := "_syscall_hook_trampoline_ba_01_00_00_00" },
    { is_multi := true,
      instructions := [0x89, 0xc1, 0x31, 0xd2],
      symbol := "_syscall_hook_trampoline_89_c1_31_d2" },
    { is_multi := true,
      instructions := [0xc3, 0x0f, 0x1f, 0x84, 0x00, 0x00, 0x00, 0x00, 0x00],
      symbol := "_syscall_hook_trampoline_c3_nop" },
    { is_multi := true,
      instructions := [0xc3, 0x0f, 0x1f, 0x44, 0x00, 0x00],
      symbol := "_syscall_hook_trampoline_c3_nop" },
    { is_multi := true,
      instructions := [0xc3, 0x0f, 0x1f, 0x00],
      symbol := "_syscall_hook_trampoline_c3_nop" },
    { is_multi := true,
      instructions := [0xc3, 0x66, 0x90],
      symbol := "_syscall_hook_trampoline_c3_nop" } ]

/-- Little-endian byte decomposition of a u64 word, as produced by the
`transmute::<u64, [u8; 8]>` in `find_syscall_hook` (x86-64 is
little-endian). -/
def u64ToLEBytes (w : Nat) : List Nat :=
  [ w % 256, w / 2 ^ 8 % 256, w / 2 ^ 16 % 256, w / 2 ^ 24 % 256,
    w / 2 ^ 32 % 256, w / 2 ^ 40 % 256, w / 2 ^ 48 % 256, w / 2 ^ 56 % 256 ]

/-- `find_syscall_hook` (src/traced_task.rs): peek two words at `rip`
and `rip + 8`, return the first catalog entry whose `instructions`
equals the corresponding leading slice of the 16 bytes read.  `peek`
models `task.peek`: `none` is a failed remote read (the source then
returns `None`; the second word is only read when the first read
succeeded). -/
def find_syscall_hook (peek : Nat → Option Nat) (rip : Nat)
    (hooks : List SyscallPatchHook) : Option SyscallPatchHook :=
  match peek rip with
  | none => none
  | some w0 =>
    match peek (rip + 8) with
    | none => none
    | some w1 =>
      let bytes := u64ToLEBytes w0 ++ u64ToLEBytes w1
      (hooks.filter (fun hook => bytes.take hook.instructions.length == hook.instructions)).head?

/-- Specification-side reading: first table entry whose byte pattern is
a prefix of the bytes read. -/
def firstPrefixHook (bytes : List Nat) (hooks : List SyscallPatchHook) :
    Option SyscallPatchHook :=
  hooks.find? (fun hook => hook.instructions.isPrefixOf bytes)

/-! ## Syscall return-value conversion
    (syscalls/src/helper.rs `syscall_ret`, src/traced_task.rs
    `remote_do_syscall_at`). -/

/-- Tracee-side wrapper conversion (syscalls/src/helper.rs): `ret as u64
>= -4096i64 as u64` is modelled on the mathematical integer as a
comparison of the unsigned reinterpretation (`ret % 2 ^ 64`). -/
def syscall_ret (ret : Int) : Except Int Int :=
  if 2 ^ 64 - 4096 ≤ ret % 2 ^ 64 then Except.error (-ret) else Except.ok ret

/-- Supervisor-side conversion at the end of `remote_do_syscall_at`
(src/traced_task.rs): `newregs.rax as u64 > (-4096i64) as u64` with the
errno `-(newregs.rax as i64) as i32`; `rax` is the raw u64 register
value. -/
def remote_syscall_ret (rax : Nat) : Except Nat Int :=
  if 2 ^ 64 - 4096 < rax then Except.error (2 ^ 64 - rax)
  else Except.ok (if rax < 2 ^ 63 then (rax : Int) else (rax : Int) - 2 ^ 64)

/-! ## /proc/[pid]/maps decoding (src/proc.rs)

The combine parsers of src/proc.rs are embedded as functions from a list
of characters to an optional value paired with the unconsumed rest.
Character classes follow the ASCII behaviour of `combine`'s
`hex_digit()`/`spaces()` (Rust's `char::is_whitespace` beyond ASCII is
not exercised by this format and is modelled by the ASCII subset). -/

/-- ASCII decimal digit. -/
def isDigitChar (c : Char) : Bool :=
  48 ≤ c.toNat && c.toNat ≤ 57

/-- ASCII hexadecimal digit (`combine`'s `hex_digit()`). -/
def isHexDigitChar (c : Char) : Bool :=
  isDigitChar c || (97 ≤ c.toNat && c.toNat ≤ 102) || (65 ≤ c.toNat && c.toNat ≤ 70)

/-- ASCII whitespace (`combine`'s `spaces()`). -/
def isWsChar (c : Char) : Bool :=
  c.toNat = 32 || c.toNat = 9 || c.toNat = 10 || c.toNat = 13

/-- Numeric value of a digit character, as used by `from_str_radix`. -/
def hexDigitVal (c : Char) : Nat :=
  if isDigitChar c then c.toNat - 48
  else if 97 ≤ c.toNat ∧ c.toNat ≤ 102 then c.toNat - 87
  else if 65 ≤ c.toNat ∧ c.toNat ≤ 70 then c.toNat - 55
  else 0

/-- Radix-`base` value of a digit string (most significant first). -/
def digitsToNat (base : Nat) (ds : List Char) : Nat :=
  ds.foldl (fun acc c => acc * base + hexDigitVal c) 0

/-- `u64::from_str_radix(_, 16).unwrap_or(0)`: overflow at `2 ^ 64`
yields `Err`, hence 0. -/
def hexNum (ds : List Char) : Nat :=
  if digitsToNat 16 ds < 2 ^ 64 then digitsToNat 16 ds else 0

/-- `str::parse::<u64>().unwrap_or(0)`: fails (hence 0) when a
non-decimal character appears or the value overflows. -/
def decNum (ds : List Char) : Nat :=
  if ds.all isDigitChar ∧ digitsToNat 10 ds < 2 ^ 64 then digitsToNat 10 ds else 0

/-- `hex_value()` (src/proc.rs): `many1(hex_digit())` mapped through
`u64::from_str_radix(_, 16).unwrap_or(0)`. -/
def hex_value (cs : List Char) : Option (Nat × List Char) :=
  if (cs.takeWhile isHexDigitChar).isEmpty then none
  else some (hexNum (cs.takeWhile isHexDigitChar),
             cs.drop (cs.takeWhile isHexDigitChar).length)

/-- `dec_value()` (src/proc.rs): `many1(hex_digit())` mapped through
`str::parse::<u64>().unwrap_or(0)` — note the source really consumes
*hex* digits and then attempts a *decimal* parse. -/
def dec_value (cs : List Char) : Option (Nat × List Char) :=
  if (cs.takeWhile isHexDigitChar).isEmpty then none
  else some (decNum (cs.takeWhile isHexDigitChar),
             cs.drop (cs.takeWhile isHexDigitChar).length)

/-- `spaces()`: skip any amount of whitespace. -/
def spacesDrop (cs : List Char) : List Char :=
  cs.dropWhile isWsChar

/-- `prot()` (src/proc.rs): after `spaces()`, four one-character choices
`[-r][-w][-x][-sp]`; produces `(prot, flags)` with `PROT_READ = 1`,
`PROT_WRITE = 2`, `PROT_EXEC = 4`, `MAP_SHARED = 1`, `MAP_PRIVATE = 2`
(the x86-64 libc values). -/
def protValue (cs : List Char) : Option ((Nat × Nat) × List Char) :=
  match spacesDrop cs with
  | r :: w :: x :: p :: rest =>
    if (r = '-' ∨ r = 'r') ∧ (w = '-' ∨ w = 'w') ∧ (x = '-' ∨ x = 'x') ∧
       (p = '-' ∨ p = 's' ∨ p = 'p') then
      let prot := (if r = 'r' then 1 else 0) ||| (if w = 'w' then 2 else 0) |||
                  (if x = 'x' then 4 else 0)
      let flags := if p = 'p' then 2 else if p = 's' then 1 else 0
      some ((prot, flags), rest)
    else none
  | _ => none

/-- `dev()` (src/proc.rs): after `spaces()`, up to two hex digits, a
colon, up to two hex digits; `major * 256 + minor`
(`i32::from_str_radix` of at most two digits cannot overflow, and of an
empty string yields `Err`, hence 0 — which `digitsToNat` also gives). -/
def devValue (cs : List Char) : Option (Nat × List Char) :=
  let cs1 := spacesDrop cs
  let majorDs := (cs1.takeWhile isHexDigitChar).take 2
  let cs2 := cs1.drop majorDs.length
  match cs2 with
  | c :: cs3 =>
    if c = ':' then
      let minorDs := (cs3.takeWhile isHexDigitChar).take 2
      let cs4 := cs3.drop minorDs.length
      some (digitsToNat 16 majorDs * 256 + digitsToNat 16 minorDs, cs4)
    else none
  | [] => none

/-- Character class accepted by `none_of("\r\n")`. -/
def notCrLf (c : Char) : Bool :=
  c ≠ '\r' && c ≠ '\n'

/-- `filepath()` (src/proc.rs): after `spaces()`, an optional
`many1(none_of("\r\n"))`; always succeeds. -/
def filepathValue (cs : List Char) : Option (List Char) × List Char :=
  let cs1 := spacesDrop cs
  let p := cs1.takeWhile notCrLf
  if p.isEmpty then (none, cs1) else (some p, cs1.drop p.length)

/-- VM-map entry (src/proc.rs `ProcMapsEntry`); `size` is stored as
`to - from` with u64 wrap-around, the path as its character list. -/
structure ProcMapsEntry where
  base : Nat
  size : Nat
  prot : Nat
  flags : Nat
  offset : Nat
  dev : Nat
  inode : Nat
  file : Option (List Char)
deriving DecidableEq

/-- `parser()` (src/proc.rs): the sequenced tuple
`(hex_value, char('-'), hex_value, prot, spaces, hex_value, dev,
spaces, dec_value, filepath)` mapped into a `ProcMapsEntry`. -/
def parseMapsEntry (cs : List Char) : Option (ProcMapsEntry × List Char) :=
  match hex_value cs with
  | none => none
  | some (fromAddr, cs1) =>
    match cs1 with
    | c :: cs2 =>
      if c = '-' then
        match hex_value cs2 with
        | none => none
        | some (toAddr, cs3) =>
          match protValue cs3 with
          | none => none
          | some ((prot, flags), cs4) =>
            match hex_value (spacesDrop cs4) with
            | none => none
            | some (offset, cs6) =>
              match devValue cs6 with
              | none => none
              | some (dev, cs7) =>
                match dec_value (spacesDrop cs7) with
                | none => none
                | some (inode, cs9) =>
                  let (file, cs10) := filepathValue cs9
                  some ({ base := fromAddr,
                          size := (toAddr + 2 ^ 64 - fromAddr) % 2 ^ 64,
                          prot := prot, flags := flags, offset := offset,
                          dev := dev, inode := inode, file := file }, cs10)
      else none
    | [] => none

/-- `parse_proc_maps_entry` (src/proc.rs): run the parser on one line
and keep only the entry (`easy_parse` tolerates unconsumed input); a
parse failure is an `Err` whose payload we model as the offending
line. -/
def parse_proc_maps_entry (line : List Char) : Except (List Char) ProcMapsEntry :=
  match parseMapsEntry line with
  | some (e, _) => Except.ok e
  | none => Except.error line

/-- Split a character list at newline characters (helper for
`str::lines()`). -/
def splitOnNl (cs : List Char) : List (List Char) :=
  match cs with
  | [] => [[]]
  | c :: rest =>
    if c = '\n' then [] :: splitOnNl rest
    else
      match splitOnNl rest with
      | l :: ls => (c :: l) :: ls
      | [] => [[c]]

/-- `str::lines()`: split on `\n`, drop a final empty segment, strip a
trailing `\r` from each line. -/
def rustLines (s : String) : List (List Char) :=
  match s.toList with
  | [] => []
  | cs =>
    let parts := splitOnNl cs
    let parts := if parts.getLast? = some [] then parts.dropLast else parts
    parts.map (fun t => if t.getLast? = some '\r' then t.dropLast else t)

/-- The `Vec<Result<_>> → Result<Vec<_>>` collection at the end of
`decode_proc_maps` (src/proc.rs): stops at the first per-line error. -/
def collectEntries (ls : List (List Char)) : Except (List Char) (List ProcMapsEntry) :=
  match ls with
  | [] => Except.ok []
  | l :: rest =>
    match parse_proc_maps_entry l with
    | Except.error e => Except.error e
    | Except.ok v =>
      match collectEntries rest with
      | Except.error e => Except.error e
      | Except.ok vs => Except.ok (v :: vs)

/-- `decode_proc_maps` (src/proc.rs), modelled from the file contents
(the `File::open`/`read_to_string` step is the input): each line is
parsed and the per-line results are collected into a single `Result`. -/
def decode_proc_maps (contents : String) : Except (List Char) (List ProcMapsEntry) :=
  collectEntries (rustLines contents)

/-! ## Debug formatting of `ProcMapsEntry` (src/proc.rs `impl Debug`)

Rust's `{:x}`, `{:08x}`, `{:02x}` and `{}` numeral formatting is
modelled by a fuelled digit printer (fuel 64 covers every u64). -/

/-- Lower-case digit character (`core::fmt` uses lower-case hex). -/
def digitChar (d : Nat) : Char :=
  if d < 10 then Char.ofNat (48 + d) else Char.ofNat (87 + d)

/-- Fuelled most-significant-first digit printer. -/
def toDigitsAux (base : Nat) : Nat → Nat → List Char → List Char
  | 0, _, acc => acc
  | fuel + 1, n, acc =>
    if n < base then digitChar n :: acc
    else toDigitsAux base fuel (n / base) (digitChar (n % base) :: acc)

/-- Digit string of `n` in the given base (no padding, `0` prints "0"). -/
def toDigitsStr (base n : Nat) : List Char :=
  toDigitsAux base 64 n []

/-- Zero-padded hex numeral of minimum width `w` (Rust `{:0wx}`). -/
def hexPad (w n : Nat) : List Char :=
  List.replicate (w - (toDigitsStr 16 n).length) '0' ++ toDigitsStr 16 n

/-- `format_prot_flags` (src/proc.rs): `rwx[sp-]` characters from the
prot/flags bits, `MAP_SHARED` tested before `MAP_PRIVATE`. -/
def format_prot_flags (prot flags : Nat) : List Char :=
  [ if prot &&& 1 ≠ 0 then 'r' else '-',
    if prot &&& 2 ≠ 0 then 'w' else '-',
    if prot &&& 4 ≠ 0 then 'x' else '-',
    if flags &&& 1 ≠ 0 then 's' else if flags &&& 2 ≠ 0 then 'p' else '-' ]

/-- Header part of the Debug format:
`base-end prot offset major:minor inode` (the `s` the padding length is
computed from). -/
def fmtHeader (e : ProcMapsEntry) : List Char :=
  toDigitsStr 16 e.base ++ ['-'] ++ toDigitsStr 16 ((e.base + e.size) % 2 ^ 64)
  ++ [' '] ++ format_prot_flags e.prot e.flags
  ++ [' '] ++ hexPad 8 e.offset
  ++ [' '] ++ hexPad 2 (e.dev / 2 ^ 8) ++ [':'] ++ hexPad 2 (e.dev &&& 255)
  ++ [' '] ++ toDigitsStr 10 e.inode

/-- The Debug formatter (src/proc.rs): header, then
`(0..=72 - s.len()).for_each(|_| res.push(' '))` — `72 - s.len()` is a
usize wrapping subtraction, so the pad count is
`(72 - len) mod 2 ^ 64 + 1` — then the path (empty for `None`). -/
def fmtEntry (e : ProcMapsEntry) : List Char :=
  fmtHeader e
  ++ List.replicate ((72 + 2 ^ 64 - (fmtHeader e).length) % 2 ^ 64 + 1) ' '
  ++ (match e.file with | some p => p | none => [])

/-! ### Component lemmas: parsing the formatted pieces back -/

/-- The head of `l` (if any) does not satisfy `p`. -/
def headNot (p : Char → Bool) (l : List Char) : Prop :=
  match l with
  | [] => True
  | c :: _ => p c = false

/-- Shape invariant satisfied by every entry the parser can produce. -/
def wfEntry (e : ProcMapsEntry) : Prop :=
  e.base < 2 ^ 64 ∧ e.size < 2 ^ 64 ∧ e.prot < 8 ∧
  (e.flags = 0 ∨ e.flags = 1 ∨ e.flags = 2) ∧ e.offset < 2 ^ 64 ∧
  e.dev < 65536 ∧ e.inode < 2 ^ 64 ∧
  (e.file = none ∨ ∃ c t, e.file = some (c :: t) ∧ isWsChar c = false ∧
    ∀ ch ∈ c :: t, notCrLf ch = true)

/-- The formatted entry, written in parse-ready right-nested form. -/
def assembled (base size prot flags offset dev inode : Nat)
    (file : Option (List Char)) (K : Nat) : List Char :=
  toDigitsStr 16 base ++ '-' ::
  (toDigitsStr 16 ((base + size) % 2 ^ 64) ++ ' ' ::
  (format_prot_flags prot flags ++ ' ' ::
  (hexPad 8 offset ++ ' ' ::
  (hexPad 2 (dev / 2 ^ 8) ++ ':' ::
  (hexPad 2 (dev &&& 255) ++ ' ' ::
  (toDigitsStr 10 inode ++
  (List.replicate (K + 1) ' ' ++
  (match file with | some p => p | none => []))))))))

/-! ## Task records and shared address-space state (src/traced_task.rs)

The `Rc<RefCell<…>>` handles of `TracedTask` are modelled as indices
into an explicit `Store`; `clone`ing a handle copies the index (aliasing
— both tasks read and write the same slot), while `forked` allocates a
fresh slot.  Numeric constants of src/consts.rs and the layout constants
of src/stubs.rs are not in the source drop and are modelled from the
spec. -/

/-- Task execution state.  The enum carrier lives in src/task.rs, which
is not in the source drop; modelled from the spec (§3, §4.1) and the
variants used by src/traced_task.rs; signals and events are numeric. -/
inductive TaskState where
  | Ready
  | Running
  | Stopped (sig : Nat)
  | Signaled (sig : Nat)
  | Event (ev : Nat)
  | Syscall
  | Exited (code : Int)
deriving DecidableEq

/-- Stub page descriptor (src/stubs.rs is not in the source drop;
modelled from the spec, §3 Stub page descriptor, with exactly the fields
`allocate_extended_jumps` populates). -/
structure SyscallStubPage where
  address : Nat
  size : Nat
  allocated : Nat
deriving DecidableEq

/-- Per-site reader/writer lock table.  Modelled from the spec
(src/remote_rwlock.rs is not in the source drop): for each patch-site
address a reader/writer lock keyed by thread-id; a site held for read by
any thread forbids a write acquisition; a site held for write forbids
reads and writes by any other thread; the holder must release its own
read before acquiring the write. -/
structure RemoteRWLock where
  readers : List (Nat × Nat)
  writers : List (Nat × Nat)
deriving DecidableEq

def RemoteRWLock.new : RemoteRWLock := ⟨[], []⟩

/-- Modelled from the spec: a read lock on `addr` is granted unless
another thread holds the write lock there. -/
def RemoteRWLock.try_read_lock (l : RemoteRWLock) (tid addr : Nat) :
    Bool × RemoteRWLock :=
  if l.writers.any (fun w => w.2 == addr && w.1 != tid) then (false, l)
  else (true, { l with readers := (tid, addr) :: l.readers })

/-- Modelled from the spec: a write lock on `addr` is granted only when
no thread holds a read lock there and no other thread holds the write
lock. -/
def RemoteRWLock.try_write_lock (l : RemoteRWLock) (tid addr : Nat) :
    Bool × RemoteRWLock :=
  if l.readers.any (fun r => r.2 == addr) ||
     l.writers.any (fun w => w.2 == addr && w.1 != tid) then (false, l)
  else (true, { l with writers := (tid, addr) :: l.writers })

/-- Modelled from the spec: drop this thread's read lock on `addr`. -/
def RemoteRWLock.try_read_unlock (l : RemoteRWLock) (tid addr : Nat) :
    Bool × RemoteRWLock :=
  (l.readers.any (fun r => r == (tid, addr)),
   { l with readers := l.readers.filter (fun r => r != (tid, addr)) })

/-- Modelled from the spec: drop this thread's write lock on `addr`. -/
def RemoteRWLock.try_write_unlock (l : RemoteRWLock) (tid addr : Nat) :
    Bool × RemoteRWLock :=
  (l.writers.any (fun w => w == (tid, addr)),
   { l with writers := l.writers.filter (fun w => w != (tid, addr)) })

/-- Backing store for the five `Rc<RefCell<…>>` families of
`TracedTask`; `nextId` is the next fresh slot. -/
structure Store where
  memMapOf : Nat → List ProcMapsEntry
  stubPagesOf : Nat → List SyscallStubPage
  unpatchableOf : Nat → List Nat
  patchedOf : Nat → List Nat
  locksetOf : Nat → RemoteRWLock
  nextId : Nat

def updFn {α : Type} (f : Nat → α) (i : Nat) (v : α) : Nat → α :=
  fun j => if j = i then v else f j

def Store.setMemMap (s : Store) (i : Nat) (v : List ProcMapsEntry) : Store :=
  { s with memMapOf := updFn s.memMapOf i v }

def Store.setStubPages (s : Store) (i : Nat) (v : List SyscallStubPage) : Store :=
  { s with stubPagesOf := updFn s.stubPagesOf i v }

def Store.setUnpatchable (s : Store) (i : Nat) (v : List Nat) : Store :=
  { s with unpatchableOf := updFn s.unpatchableOf i v }

def Store.setPatched (s : Store) (i : Nat) (v : List Nat) : Store :=
  { s with patchedOf := updFn s.patchedOf i v }

def Store.setLockset (s : Store) (i : Nat) (v : RemoteRWLock) : Store :=
  { s with locksetOf := updFn s.locksetOf i v }

/-- The task record (src/traced_task.rs `TracedTask`); the five shared
collections are handles into the `Store`. -/
structure TracedTask where
  tid : Nat
  pid : Nat
  ppid : Nat
  pgid : Nat
  in_vfork : Bool
  seccomp_hook_size : Option Nat
  state : TaskState
  ldpreload_address : Option Nat
  injected_mmap_page : Option Nat
  injected_shared_page : Option Nat
  signal_to_deliver : Option Nat
  memory_map : Nat
  stub_pages : Nat
  unpatchable_syscalls : Nat
  patched_syscalls : Nat
  syscall_patch_lockset : Nat
deriving DecidableEq

/-- Global counters (src/state.rs `SystraceState` is not in the source
drop; modelled from the spec's shared-state page, with the counters
src/traced_task.rs increments). -/
structure SystraceState where
  nr_syscalls : Nat
  nr_syscalls_ptraced : Nat
  nr_syscalls_patched : Nat
  nr_forked : Nat
  nr_cloned : Nat
  nr_exited : Nat
  nr_process_spawns : Nat
deriving DecidableEq

/-- Scheduler-facing run outcome (src/task.rs `RunTask`, not in the
source drop; modelled from the spec §4.1 and its uses in
src/traced_task.rs). -/
inductive RunTask where
  | Runnable (t : TracedTask)
  | Forked (parent child : TracedTask)
  | Exited (code : Int)

/-- Signal numbers (Linux x86-64). -/
def SIGTRAP : Nat := 5

def SIGCHLD : Nat := 17

/-- Modelled from the spec (src/consts.rs is not in the source drop):
the syscall instruction `0f 05` is two bytes; as a little-endian word
masked with `0xffff` it reads `0x050f`. -/
def SYSCALL_INSN_SIZE : Nat := 2

def SYSCALL_INSN_MASK : Nat := 0xffff

def SYSCALL_INSN : Nat := 0x050f

/-- Modelled from the spec (src/consts.rs is not in the source drop):
fixed tracee virtual address at which the trampoline publishes its load
base; the concrete value is immaterial to the claims. -/
def SYSTRACE_LOCAL_SYSCALL_TRAMPOLINE : Nat := 0x70000038

/-- Modelled from the spec (src/consts.rs is not in the source drop):
fixed address of the shared-state page mapping requested by
`do_ptrace_exec`; the concrete value is immaterial to the claims. -/
def SYSTRACE_GLOBAL_STATE_ADDR : Nat := 0x70002000

/-- Modelled from the spec (src/stubs.rs is not in the source drop):
number of 4 KiB pages per extended-jump allocation. -/
def extended_jump_pages : Nat := 1

/-- Modelled from the spec (src/stubs.rs is not in the source drop):
byte stride of one extended-jump stub (`call *0(%rip); .quad …; ret`,
padded); equal across hooks. -/
def extended_jump_size : Nat := 16

/-- `TracedTask::cloned` (src/traced_task.rs): new thread of the same
process — every shared handle is aliased; `childTid` is the value
`ptrace::getevent` returned. -/
def TracedTask.cloned (t : TracedTask) (childTid : Nat) : TracedTask :=
  { t with
    tid := childTid,
    ppid := t.pid,
    in_vfork := false,
    seccomp_hook_size := none,
    state := TaskState.Ready,
    signal_to_deliver := none }

/-- `TracedTask::forked` (src/traced_task.rs): new process — the memory
map, stub pages, unpatchable set and patched set are deep-copied into a
fresh slot, while the lockset slot is initialised with
`RemoteRWLock::new()`. -/
def TracedTask.forked (t : TracedTask) (s : Store) (childPid : Nat) :
    TracedTask × Store :=
  ({ tid := childPid, pid := childPid, ppid := t.pid, pgid := t.pgid,
     in_vfork := false, seccomp_hook_size := none, state := TaskState.Ready,
     ldpreload_address := t.ldpreload_address,
     injected_mmap_page := t.injected_mmap_page,
     injected_shared_page := t.injected_shared_page,
     signal_to_deliver := none,
     memory_map := s.nextId, stub_pages := s.nextId,
     unpatchable_syscalls := s.nextId, patched_syscalls := s.nextId,
     syscall_patch_lockset := s.nextId },
   { memMapOf := updFn s.memMapOf s.nextId (s.memMapOf t.memory_map),
     stubPagesOf := updFn s.stubPagesOf s.nextId (s.stubPagesOf t.stub_pages),
     unpatchableOf := updFn s.unpatchableOf s.nextId (s.unpatchableOf t.unpatchable_syscalls),
     patchedOf := updFn s.patchedOf s.nextId (s.patchedOf t.patched_syscalls),
     locksetOf := updFn s.locksetOf s.nextId RemoteRWLock.new,
     nextId := s.nextId + 1 })

/-- A task's handles all point at allocated slots. -/
def TracedTask.validIn (t : TracedTask) (s : Store) : Prop :=
  t.memory_map < s.nextId ∧ t.stub_pages < s.nextId ∧
  t.unpatchable_syscalls < s.nextId ∧ t.patched_syscalls < s.nextId ∧
  t.syscall_patch_lockset < s.nextId

/-- `task_exec_reset` (src/traced_task.rs): reset after `exec` — note
the source sets the state to `Exited(0)`. -/
def task_exec_reset (t : TracedTask) (s : Store) : TracedTask × Store :=
  ({ t with
     ldpreload_address := none,
     injected_mmap_page := some 0x70000000,
     signal_to_deliver := none,
     state := TaskState.Exited 0,
     in_vfork := false,
     seccomp_hook_size := none },
   ((((s.setPatched t.patched_syscalls []).setUnpatchable
        t.unpatchable_syscalls []).setMemMap t.memory_map []).setStubPages
        t.stub_pages []).setLockset t.syscall_patch_lockset RemoteRWLock.new)

/-- `libtrampoline_load_address` (src/traced_task.rs): read the
published trampoline base; nonzero values are page-aligned with
`& !0xfff`. -/
def libtrampoline_load_address (mem : Nat → Option Nat) : Option Nat :=
  match mem SYSTRACE_LOCAL_SYSCALL_TRAMPOLINE with
  | some a => if a ≠ 0 then some (a &&& (2 ^ 64 - 0x1000)) else none
  | none => none

/-- `is_syscall_insn` (src/traced_task.rs); `none` is a failed
`ptrace::read` (propagated by `?` in the caller). -/
def is_syscall_insn (mem : Nat → Option Nat) (rip : Nat) : Option Bool :=
  (mem rip).map (fun insn => insn &&& SYSCALL_INSN_MASK == SYSCALL_INSN)

/-- Registers of interest to the seccomp path. -/
structure Regs where
  rip : Nat
  rax : Nat
  orig_rax : Nat
deriving DecidableEq

/-- Outcome of `skip_seccomp_syscall` (src/traced_task.rs): `panic`
models the failed `waitpid` assertion, `fail` a `setregs`/`step` error
returned as `Err`, `ok` the successful skip (which leaves the task state
`Stopped(SIGTRAP)`). -/
inductive SkipOutcome where
  | panic
  | fail
  | ok
deriving DecidableEq

/-- Oracle for the ptrace/kernel effects of `do_ptrace_exec` and
`tracee_preinit` (src/traced_task.rs): each field carries the outcome of
one external call, in program order. -/
structure ExecWorld where
  readSaved : Option Int
  writeBpOk : Bool
  contOk : Bool
  waitTrap : Bool
  preinitOk : Bool
  writeRestoreOk : Bool
  mmapSawSigchld : Bool
  mmapResult : Option Nat
  writeStateOk : Bool

/-- Oracle for the ptrace/kernel effects of the seccomp/patching path
(src/traced_task.rs): `mem` answers word-sized `ptrace::read`s, the
remaining fields carry the outcomes of the external calls each function
makes, in program order. -/
structure World where
  mem : Nat → Option Nat
  getregs : Option Regs
  getevent : Option Int
  waitSigstopOk : Bool
  skip : SkipOutcome
  syncOk : Bool
  searchStub : Option Nat
  mmapRet : Option Nat
  pokeOk : Bool
  mprotectOk : Bool
  newMaps : List ProcMapsEntry
  exec : ExecWorld

/-- `hook_index` (src/traced_task.rs): position of the hook in the
catalog (first match); `none` models the `Err` branch. -/
def hook_index (hooks : List SyscallPatchHook) (curr : SyscallPatchHook) : Option Nat :=
  hooks.findIdx? (fun h => h == curr)

/-- `extended_jump_offset_from_stub_page` (src/traced_task.rs). -/
def extended_jump_offset_from_stub_page (hooks : List SyscallPatchHook)
    (curr : SyscallPatchHook) : Option Nat :=
  (hook_index hooks curr).map (fun k => k * extended_jump_size)

/-- `allocate_extended_jumps` (src/traced_task.rs): search a slot
(`search_stub_page`, src/remote.rs, via the oracle), inject the untraced
`mmap`, record the stub page, write the stubs, `mprotect`, refresh the
memory-map snapshot.  `none` is the `assert!(at == allocated_at)` panic;
`Except.error` are the `?`-propagated errors — note the stub-page record
survives a later poke/mprotect error. -/
def allocate_extended_jumps (w : World) (t : TracedTask) (s : Store) :
    Option (Store × Except Unit Nat) :=
  match w.searchStub with
  | none => some (s, Except.error ())
  | some at_ =>
    match w.mmapRet with
    | none => some (s, Except.error ())
    | some allocated_at =>
      if allocated_at ≠ at_ then none
      else
        match t.ldpreload_address with
        | none => some (s, Except.error ())
        | some _preload =>
          let s1 := s.setStubPages t.stub_pages
            (s.stubPagesOf t.stub_pages ++
              [⟨at_, extended_jump_pages * 0x1000, SYSCALL_HOOKS.length * extended_jump_size⟩])
          if ¬ w.pokeOk then some (s1, Except.error ())
          else if ¬ w.mprotectOk then some (s1, Except.error ())
          else some (s1.setMemMap t.memory_map w.newMaps, Except.ok at_)

/-- `extended_jump_from_to` (src/traced_task.rs): reuse a stub page
within ±2 GiB of `rip` (`2u64.wrapping_shl(30)` is `2 ^ 31`), otherwise
allocate one; the result is the per-hook stub entry address. -/
def extended_jump_from_to (w : World) (t : TracedTask) (s : Store)
    (hook : SyscallPatchHook) (rip : Nat) : Option (Store × Except Unit Nat) :=
  let two_gb := 2 <<< 30
  let stub_address := ((s.stubPagesOf t.stub_pages).find? (fun page =>
    if page.address + page.size ≤ rip then decide (rip - page.address ≤ two_gb)
    else if page.address ≥ rip then
      decide (page.address + extended_jump_pages * 0x1000 - rip ≤ two_gb)
    else false)).map (fun page => page.address)
  match stub_address with
  | some x =>
    match extended_jump_offset_from_stub_page SYSCALL_HOOKS hook with
    | none => some (s, Except.error ())
    | some off => some (s, Except.ok (x + off))
  | none =>
    match allocate_extended_jumps w t s with
    | none => none
    | some (s1, Except.error e) => some (s1, Except.error e)
    | some (s1, Except.ok pa) =>
      match extended_jump_offset_from_stub_page SYSCALL_HOOKS hook with
      | none => some (s1, Except.error ())
      | some off => some (s1, Except.ok (pa + off))

/-- `patch_syscall_with` (src/traced_task.rs).  Result: `none` for a
panic (`unreachable!`, failed `expect`/`assert`), `some (false, …)` for
an `Err` return (the mutations made so far persist through `&mut`),
`some (true, …)` for `Ok(())`.  `patch_syscall_at` (src/remote.rs, not
in the source drop) is modelled from the spec as writing tracee code
bytes only, with no effect on supervisor-visible task state. -/
def patch_syscall_with (w : World) (t : TracedTask) (s : Store)
    (hook : SyscallPatchHook) (rip : Nat) : Option (Bool × TracedTask × Store) :=
  if t.in_vfork then some (false, t, s)
  else if t.ldpreload_address = none then some (false, t, s)
  else if (s.patchedOf t.patched_syscalls).any (fun pc => pc == rip) then none
  else if (s.unpatchableOf t.unpatchable_syscalls).any (fun pc => pc == rip) then
    some (false, t, s)
  else
    match w.getregs with
    | none => none
    | some _old_regs =>
      let l1 := ((s.locksetOf t.syscall_patch_lockset).try_read_unlock t.tid rip).2
      if ¬ (l1.try_write_lock t.tid rip).1 then
        some (false, t, s.setLockset t.syscall_patch_lockset l1)
      else
        let s2 := s.setLockset t.syscall_patch_lockset (l1.try_write_lock t.tid rip).2
        match w.skip with
        | SkipOutcome.panic => none
        | SkipOutcome.fail => some (false, t, s2)
        | SkipOutcome.ok =>
          let t1 := { t with state := TaskState.Stopped SIGTRAP }
          match extended_jump_from_to w t1 s2 hook rip with
          | none => none
          | some (s3, Except.error _) => some (false, t1, s3)
          | some (s3, Except.ok _indirect_jump_address) =>
            let s4 := s3.setPatched t1.patched_syscalls
              (s3.patchedOf t1.patched_syscalls ++ [rip])
            let l3 := ((s4.locksetOf t1.syscall_patch_lockset).try_write_unlock t1.tid rip).2
            some (true, t1, s4.setLockset t1.syscall_patch_lockset l3)

/-- `do_ptrace_seccomp` (src/traced_task.rs).  `none` collapses the
panic and `Err` exits (in both cases the scheduler never sees the task
again); `some` is the `Ok(task)` return together with the store and the
counters.  The 1 ms read-lock spin is modelled as divergence (`none`)
when the first acquisition fails, since no other supervisor action can
change the lockset while the single supervisor thread spins.
`synchronize_from` (src/remote.rs, not in the source drop) is modelled
from the spec (§4.4 step 1) as single-stepping with no effect on
supervisor-visible task state; its waitpid panics are `w.syncOk =
false`. -/
def do_ptrace_seccomp (w : World) (t : TracedTask) (s : Store) (σ : SystraceState) :
    Option (TracedTask × Store × SystraceState) :=
  match w.getregs with
  | none => none
  | some regs =>
    match w.getevent with
    | none => none
    | some ev =>
      if ev = 0x7fff then none
      else
        let t0 := if t.ldpreload_address = none
                  then { t with ldpreload_address := libtrampoline_load_address w.mem }
                  else t
        let hook := find_syscall_hook w.mem regs.rip SYSCALL_HOOKS
        let t1 := { t0 with seccomp_hook_size :=
          (t0.ldpreload_address.bind
            (fun _ => hook.map (fun x : SyscallPatchHook => x.instructions.length))) }
        match is_syscall_insn w.mem (regs.rip - SYSCALL_INSN_SIZE) with
        | none => none
        | some isSys =>
          if ¬ isSys then
            match w.skip with
            | SkipOutcome.ok =>
              if w.syncOk then some ({ t1 with state := TaskState.Stopped SIGTRAP }, s, σ)
              else none
            | _ => none
          else
            if ¬ ((s.locksetOf t1.syscall_patch_lockset).try_read_lock t1.tid regs.rip).1 then
              none
            else
              let s1 := s.setLockset t1.syscall_patch_lockset
                ((s.locksetOf t1.syscall_patch_lockset).try_read_lock t1.tid regs.rip).2
              match t1.ldpreload_address, hook with
              | some _, some h =>
                match patch_syscall_with w t1 s1 h regs.rip with
                | none => none
                | some (patched, t2, s2) =>
                  if patched then
                    some (t2, s2,
                      { σ with nr_syscalls_patched := σ.nr_syscalls_patched + 1 })
                  else
                    some (t2, s2,
                      { σ with nr_syscalls := σ.nr_syscalls + 1,
                               nr_syscalls_ptraced := σ.nr_syscalls_ptraced + 1 })
              | _, _ =>
                some (t1, s1,
                  { σ with nr_syscalls := σ.nr_syscalls + 1,
                           nr_syscalls_ptraced := σ.nr_syscalls_ptraced + 1 })

/-- `do_ptrace_exec` together with `tracee_preinit` (src/traced_task.rs):
breakpoint injection, pre-init, restore, `task_exec_reset`, shared-state
mmap (whose `unwrap`/`assert_eq` panic on failure), state-address
publication and the spawn counter.  `none` collapses panics and
propagated nix errors. -/
def do_ptrace_exec (w : ExecWorld) (t : TracedTask) (s : Store) (σ : SystraceState) :
    Option (TracedTask × Store × SystraceState) :=
  match w.readSaved with
  | none => none
  | some _saved =>
    if ¬ w.writeBpOk then none
    else if ¬ w.contOk then none
    else if ¬ w.waitTrap then none
    else if ¬ w.preinitOk then none
    else if ¬ w.writeRestoreOk then none
    else
      let t1 := (task_exec_reset t s).1
      let s1 := (task_exec_reset t s).2
      match w.mmapResult with
      | none => none
      | some at_ =>
        if at_ ≠ SYSTRACE_GLOBAL_STATE_ADDR then none
        else
          let t2 := if w.mmapSawSigchld
                    then { t1 with signal_to_deliver := some SIGCHLD }
                    else t1
          if ¬ w.writeStateOk then none
          else some (t2, s1,
            { σ with nr_process_spawns := σ.nr_process_spawns + 1 })

/-- `do_ptrace_fork` (src/traced_task.rs): `forked()` plus
`wait_sigstop` and the counters. -/
def do_ptrace_fork (w : World) (t : TracedTask) (s : Store) (σ : SystraceState) :
    Option ((TracedTask × TracedTask) × Store × SystraceState) :=
  match w.getevent with
  | none => none
  | some childPid =>
    match t.forked s childPid.toNat with
    | (child, s1) =>
      if ¬ w.waitSigstopOk then none
      else some ((t, child), s1,
        { σ with nr_syscalls := σ.nr_syscalls + 1,
                 nr_syscalls_ptraced := σ.nr_syscalls_ptraced + 1,
                 nr_forked := σ.nr_forked + 1 })

/-- `do_ptrace_vfork` (src/traced_task.rs): like fork, with
`in_vfork = true` on the child. -/
def do_ptrace_vfork (w : World) (t : TracedTask) (s : Store) (σ : SystraceState) :
    Option ((TracedTask × TracedTask) × Store × SystraceState) :=
  match w.getevent with
  | none => none
  | some childPid =>
    match t.forked s childPid.toNat with
    | (child, s1) =>
      if ¬ w.waitSigstopOk then none
      else some ((t, { child with in_vfork := true }), s1,
        { σ with nr_syscalls := σ.nr_syscalls + 1,
                 nr_syscalls_ptraced := σ.nr_syscalls_ptraced + 1,
                 nr_forked := σ.nr_forked + 1 })

/-- `do_ptrace_clone` (src/traced_task.rs): `cloned()` plus
`wait_sigstop` and the counters. -/
def do_ptrace_clone (w : World) (t : TracedTask) (s : Store) (σ : SystraceState) :
    Option ((TracedTask × TracedTask) × Store × SystraceState) :=
  match w.getevent with
  | none => none
  | some childTid =>
    if ¬ w.waitSigstopOk then none
    else some ((t, t.cloned childTid.toNat), s,
      { σ with nr_syscalls := σ.nr_syscalls + 1,
               nr_syscalls_ptraced := σ.nr_syscalls_ptraced + 1,
               nr_cloned := σ.nr_cloned + 1 })

/-- `do_ptrace_event_exit` (src/traced_task.rs). -/
def do_ptrace_event_exit (w : World) (σ : SystraceState) :
    Option (Int × SystraceState) :=
  match w.getevent with
  | none => none
  | some retval => some (retval, { σ with nr_exited := σ.nr_exited + 1 })

/-- ptrace extended event codes. -/
def PTRACE_EVENT_FORK : Nat := 1

def PTRACE_EVENT_VFORK : Nat := 2

def PTRACE_EVENT_CLONE : Nat := 3

def PTRACE_EVENT_EXEC : Nat := 4

def PTRACE_EVENT_VFORK_DONE : Nat := 5

def PTRACE_EVENT_EXIT : Nat := 6

def PTRACE_EVENT_SECCOMP : Nat := 7

/-- `handle_ptrace_event` (src/traced_task.rs): dispatch on the task's
recorded event; unknown events or states panic (`none`). -/
def handle_ptrace_event (w : World) (t : TracedTask) (s : Store) (σ : SystraceState) :
    Option (RunTask × Store × SystraceState) :=
  match t.state with
  | TaskState.Event ev =>
    if ev = PTRACE_EVENT_FORK then
      (do_ptrace_fork w t s σ).map (fun r => (RunTask.Forked r.1.1 r.1.2, r.2.1, r.2.2))
    else if ev = PTRACE_EVENT_VFORK then
      (do_ptrace_vfork w t s σ).map (fun r => (RunTask.Forked r.1.1 r.1.2, r.2.1, r.2.2))
    else if ev = PTRACE_EVENT_CLONE then
      (do_ptrace_clone w t s σ).map (fun r => (RunTask.Forked r.1.1 r.1.2, r.2.1, r.2.2))
    else if ev = PTRACE_EVENT_EXEC then
      (do_ptrace_exec w.exec t s σ).map (fun r => (RunTask.Runnable r.1, r.2.1, r.2.2))
    else if ev = PTRACE_EVENT_VFORK_DONE then
      some (RunTask.Runnable t, s, σ)
    else if ev = PTRACE_EVENT_EXIT then
      (do_ptrace_event_exit w σ).map (fun r => (RunTask.Exited r.1, s, r.2))
    else if ev = PTRACE_EVENT_SECCOMP then
      (do_ptrace_seccomp w t s σ).map (fun r => (RunTask.Runnable r.1, r.2.1, r.2.2))
    else none
  | _ => none

theorem leVal_lt (bs : List Nat) (h : ∀ b ∈ bs, b < 256) :
    leVal bs < 2 ^ (8 * bs.length) := by
  induction bs with
  | nil => simp [leVal]
  | cons b rest ih =>
    have hb : b < 256 := h b (by simp)
    have hr := ih (fun x hx => h x (by simp [hx]))
    simp only [leVal, List.length_cons]
    have : 8 * (rest.length + 1) = 8 * rest.length + 8 := by ring
    rw [this, pow_add]
    have h256 : (2 : Nat) ^ 8 = 256 := by norm_num
    calc b + 256 * leVal rest ≤ 255 + 256 * (2 ^ (8 * rest.length) - 1) := by
          have := Nat.le_sub_one_of_lt hr
          omega
      _ < 2 ^ (8 * rest.length) * 2 ^ 8 := by
          have hpos : 1 ≤ 2 ^ (8 * rest.length) := Nat.one_le_two_pow
          rw [h256]; omega

/-- Bits of `2 ^ a - 2 ^ b` (for `b ≤ a`): set exactly in positions
`[b, a)`. -/
theorem testBit_two_pow_sub_two_pow (a b i : Nat) (hba : b ≤ a) :
    (2 ^ a - 2 ^ b).testBit i = (decide (b ≤ i) && decide (i < a)) := by
  have hsplit : 2 ^ a - 2 ^ b = 2 ^ b * (2 ^ (a - b) - 1) := by
    rw [Nat.mul_sub_one, ← pow_add]
    have hba' : b + (a - b) = a := by omega
    rw [hba']
  rw [hsplit, Nat.testBit_mul_pow_two, Nat.testBit_two_pow_sub_one]
  rcases Nat.lt_or_ge i b with hib | hib
  · have h1 : ¬ (i ≥ b) := by omega
    have h2 : ¬ (b ≤ i) := by omega
    simp [h1, h2]
  · have h1 : i ≥ b := hib
    have h2 : (i - b < a - b) ↔ (i < a) := by omega
    simp [h1, h2]

/-- AND with the upper mask `2 ^ 64 - 2 ^ m` clears the low `m` bits and
keeps the rest (for values below `2 ^ 64`). -/
theorem land_high_mask (x m : Nat) (hx : x < 2 ^ 64) (hm : m ≤ 64) :
    x &&& (2 ^ 64 - 2 ^ m) = x / 2 ^ m * 2 ^ m := by
  apply Nat.eq_of_testBit_eq
  intro i
  rw [Nat.testBit_and, testBit_two_pow_sub_two_pow 64 m i hm]
  have hdiv : x / 2 ^ m * 2 ^ m = 2 ^ m * (x / 2 ^ m) := by ring
  rw [hdiv, Nat.testBit_mul_pow_two]
  have hshift : ∀ j, (x / 2 ^ m).testBit j = x.testBit (m + j) := by
    intro j
    rw [← Nat.shiftRight_eq_div_pow, Nat.testBit_shiftRight]
  rcases Nat.lt_or_ge i m with him | him
  · simp [Nat.not_le.mpr him]
  · simp only [decide_eq_true (him : m ≤ i), Bool.true_and, hshift,
      Nat.add_sub_cancel' him]
    rcases Nat.lt_or_ge i 64 with hi64 | hi64
    · simp [hi64]
    · have hxb : x.testBit i = false :=
        Nat.testBit_lt_two_pow (lt_of_lt_of_le hx (Nat.pow_le_pow_right (by norm_num) hi64))
      simp [hxb, Nat.not_lt.mpr hi64]

/-- Behaviour of the byte-OR loop: starting from an accumulator whose
bits split into a high part (at or above byte `j + len`) and a low part
(below byte `j`), the loop adds the little-endian value of the bytes at
byte position `j`. -/
theorem orBytes_spec (bs : List Nat) : ∀ j hi lo, lo < 2 ^ (8 * j) →
    (∀ b ∈ bs, b < 256) →
    orBytes (2 ^ (8 * (j + bs.length)) * hi + lo) bs j =
      2 ^ (8 * (j + bs.length)) * hi + leVal bs * 2 ^ (8 * j) + lo := by
  induction bs with
  | nil => intro j hi lo _ _; simp [orBytes, leVal]
  | cons b rest ih =>
    intro j hi lo hlo hb
    have hb0 : b < 256 := hb b (by simp)
    have hrest : ∀ x ∈ rest, x < 256 := fun x hx => hb x (by simp [hx])
    have hlen : (b :: rest).length = rest.length + 1 := rfl
    simp only [orBytes]
    -- the OR of the new byte is an addition: the bit ranges are disjoint
    have hpow : (2 : Nat) ^ (8 * (j + 1)) = 2 ^ (8 * j) * 2 ^ 8 := by
      rw [← pow_add]; ring_nf
    have hlo' : lo + b <<< (8 * j) < 2 ^ (8 * (j + 1)) := by
      rw [Nat.shiftLeft_eq, hpow]
      have h1 : b * 2 ^ (8 * j) ≤ 255 * 2 ^ (8 * j) :=
        Nat.mul_le_mul_right _ (by omega)
      have h2 : (2 : Nat) ^ 8 = 256 := by norm_num
      rw [h2]
      calc lo + b * 2 ^ (8 * j) < 2 ^ (8 * j) + 255 * 2 ^ (8 * j) := by omega
        _ = 2 ^ (8 * j) * 256 := by ring
    have hlow_le : (2 : Nat) ^ (8 * (j + 1)) ≤ 2 ^ (8 * (j + 1 + rest.length)) :=
      Nat.pow_le_pow_right (by norm_num) (by omega)
    have hkey : 2 ^ (8 * (j + (b :: rest).length)) * hi + lo ||| b <<< (8 * j)
        = 2 ^ (8 * (j + 1 + rest.length)) * hi + (lo + b <<< (8 * j)) := by
      have harr : 8 * (j + (b :: rest).length) = 8 * (j + 1 + rest.length) := by
        simp [hlen]; ring
      rw [harr]
      -- split the accumulator into an OR (its two parts are disjoint)
      have hlo_lt_big : lo < 2 ^ (8 * (j + 1 + rest.length)) :=
        lt_of_lt_of_le (lt_of_lt_of_le hlo (Nat.pow_le_pow_right (by norm_num) (by omega))) le_rfl
      rw [Nat.mul_add_lt_is_or hlo_lt_big hi, Nat.or_assoc]
      -- fold the byte into the low part
      have hbyte : lo ||| b <<< (8 * j) = lo + b <<< (8 * j) := by
        rw [Nat.shiftLeft_eq]
        have hmul : b * 2 ^ (8 * j) = 2 ^ (8 * j) * b := by ring
        rw [hmul, Nat.or_comm, ← Nat.mul_add_lt_is_or hlo b]
        ring_nf
      rw [hbyte, ← Nat.mul_add_lt_is_or (lt_of_lt_of_le hlo' hlow_le) hi]
    rw [hkey]
    have := ih (j + 1) hi (lo + b <<< (8 * j)) hlo' hrest
    rw [this]
    simp only [leVal, hlen]
    rw [Nat.shiftLeft_eq]
    have harr2 : 8 * (j + 1 + rest.length) = 8 * (j + (rest.length + 1)) := by ring
    rw [harr2]
    have hpows : (2 : Nat) ^ (8 * (j + 1)) = 2 ^ (8 * j) * 256 := by
      rw [hpow]; norm_num
    rw [hpows]
    ring

/-- Mask-table entries equal the upper masks `2 ^ 64 - 2 ^ (8k)`. -/
theorem pokeMasks_getD (k : Nat) (h1 : 1 ≤ k) (h8 : k ≤ 8) :
    pokeMasks.getD (k - 1) 0 = 2 ^ 64 - 2 ^ (8 * k) := by
  interval_cases k <;> decide

/-- C5: for a write of `k` bytes (1 ≤ k ≤ 8) through the word-granular
path of `poke_bytes`, the word written back keeps the upper `8 − k`
bytes of the original word and carries the new bytes little-endian in
its lower `k` bytes. -/
theorem poke_bytes_word_correct (orig : Nat) (bytes : List Nat)
    (horig : orig < 2 ^ 64) (h1 : 1 ≤ bytes.length) (h8 : bytes.length ≤ 8)
    (hb : ∀ b ∈ bytes, b < 256) :
    pokeWord orig bytes % 2 ^ (8 * bytes.length) = leVal bytes ∧
    pokeWord orig bytes / 2 ^ (8 * bytes.length) = orig / 2 ^ (8 * bytes.length) := by
  have hle := leVal_lt bytes hb
  have hmask := pokeMasks_getD bytes.length h1 h8
  have hmasked : (if bytes.length < 8 then orig else 0) &&& pokeMasks.getD (bytes.length - 1) 0
      = orig / 2 ^ (8 * bytes.length) * 2 ^ (8 * bytes.length) := by
    rcases Nat.lt_or_ge bytes.length 8 with hk8 | hk8
    · rw [if_pos hk8, hmask, land_high_mask orig (8 * bytes.length) horig (by omega)]
    · have hk8' : bytes.length = 8 := by omega
      rw [if_neg (by omega), hmask, Nat.zero_and]
      have hz : orig / 2 ^ (8 * bytes.length) = 0 := by
        apply Nat.div_eq_of_lt
        rw [hk8']
        exact horig
      rw [hz, Nat.zero_mul]
  have hor := orBytes_spec bytes 0 (orig / 2 ^ (8 * bytes.length)) 0 (by simp) hb
  simp only [Nat.zero_add, Nat.mul_zero, pow_zero, Nat.mul_one, Nat.add_zero] at hor
  have hrun : pokeWord orig bytes
      = 2 ^ (8 * bytes.length) * (orig / 2 ^ (8 * bytes.length)) + leVal bytes := by
    show orBytes ((if bytes.length < 8 then orig else 0) &&&
        pokeMasks.getD (bytes.length - 1) 0) bytes 0 = _
    rw [hmasked]
    have hcomm : orig / 2 ^ (8 * bytes.length) * 2 ^ (8 * bytes.length)
        = 2 ^ (8 * bytes.length) * (orig / 2 ^ (8 * bytes.length)) := by
      ring
    rw [hcomm, hor]
  constructor
  · rw [hrun, Nat.mul_add_mod, Nat.mod_eq_of_lt hle]
  · rw [hrun, Nat.mul_add_div (Nat.two_pow_pos _), Nat.div_eq_of_lt hle, Nat.add_zero]

/-- Witness for C5 at a concrete two-byte write. -/
theorem poke_bytes_word_correct_witness :
    pokeWord 0x1122334455667788 [0xAA, 0xBB] % 2 ^ 16 = leVal [0xAA, 0xBB] ∧
    pokeWord 0x1122334455667788 [0xAA, 0xBB] / 2 ^ 16 = 0x1122334455667788 / 2 ^ 16 :=
  poke_bytes_word_correct 0x1122334455667788 [0xAA, 0xBB]
    (by norm_num) (by simp) (by simp) (by decide)

theorem filter_head_eq_find (hooks : List SyscallPatchHook) (bytes : List Nat)
    (hlen : ∀ h ∈ hooks, h.instructions.length ≤ bytes.length) :
    (hooks.filter (fun hook => bytes.take hook.instructions.length == hook.instructions)).head?
      = firstPrefixHook bytes hooks := by
  simp only [firstPrefixHook]
  induction hooks with
  | nil => rfl
  | cons h rest ih =>
    have hh : h.instructions.length ≤ bytes.length := hlen h (by simp)
    have hpred : (bytes.take h.instructions.length == h.instructions)
        = h.instructions.isPrefixOf bytes := by
      by_cases hp : h.instructions <+: bytes
      · have h1 : h.instructions.isPrefixOf bytes = true :=
          List.isPrefixOf_iff_prefix.mpr hp
        have h2 : bytes.take h.instructions.length = h.instructions :=
          (List.prefix_iff_eq_take.mp hp).symm
        rw [h1, h2]
        simp
      · have h1 : h.instructions.isPrefixOf bytes = false := by
          rw [Bool.eq_false_iff]
          intro hc
          exact hp (List.isPrefixOf_iff_prefix.mp hc)
        have h2 : bytes.take h.instructions.length ≠ h.instructions := by
          intro hc
          exact hp (List.prefix_iff_eq_take.mpr hc.symm)
        rw [h1]
        simpa using h2
    have hrest : ∀ x ∈ rest, x.instructions.length ≤ bytes.length :=
      fun x hx => hlen x (by simp [hx])
    by_cases hp : h.instructions.isPrefixOf bytes
    · have hp' : (bytes.take h.instructions.length == h.instructions) = true := by
        rw [hpred]; exact hp
      simp [List.filter_cons, List.find?_cons, hp', hp]
    · have hpf : h.instructions.isPrefixOf bytes = false := Bool.eq_false_iff.mpr hp
      have hp' : (bytes.take h.instructions.length == h.instructions) = false := by
        rw [hpred]; exact hpf
      simpa [List.filter_cons, List.find?_cons, hp', hpf] using ih hrest

/-- C6: `find_syscall_hook` returns exactly the first catalog entry
whose instruction pattern is a prefix of the 16 bytes read after the
syscall instruction, and returns no hook when a remote read fails. -/
theorem find_syscall_hook_correct (peek : Nat → Option Nat) (rip : Nat) :
    find_syscall_hook peek rip SYSCALL_HOOKS =
      match peek rip with
      | none => none
      | some w0 =>
        match peek (rip + 8) with
        | none => none
        | some w1 => firstPrefixHook (u64ToLEBytes w0 ++ u64ToLEBytes w1) SYSCALL_HOOKS := by
  unfold find_syscall_hook
  cases peek rip with
  | none => rfl
  | some w0 =>
    cases peek (rip + 8) with
    | none => rfl
    | some w1 =>
      simp only
      apply filter_head_eq_find
      intro h hmem
      have hlen16 : (u64ToLEBytes w0 ++ u64ToLEBytes w1).length = 16 := by
        simp [u64ToLEBytes]
      rw [hlen16]
      fin_cases hmem <;> decide

/-- C7 counterexample: the wrapped (tracee-side) path converts a raw
return of −4096 to an error, although −4096 is outside `[−4095, −1]`. -/
theorem syscall_ret_minus_4096 :
    syscall_ret (-4096) = Except.error 4096 ∧
    ¬ ((-4095 : Int) ≤ -4096 ∧ (-4096 : Int) ≤ -1) := by
  constructor
  · unfold syscall_ret
    norm_num
  · intro h
    omega

/-- C7 as amended: the injected (supervisor) path errors exactly on raw
returns in `[−4095, −1]`, while the wrapped (tracee-side) helper errors
exactly on `[−4096, −1]`; the error carries the negated raw value as
errno in both cases. -/
theorem syscall_ret_ranges (r : Int) (hlo : -(2 ^ 63) ≤ r) (hhi : r < 2 ^ 63)
    (rax : Nat) (hrax : rax < 2 ^ 64) :
    (syscall_ret r = Except.error (-r) ↔ (-4096 ≤ r ∧ r ≤ -1)) ∧
    (¬ (-4096 ≤ r ∧ r ≤ -1) → syscall_ret r = Except.ok r) ∧
    (remote_syscall_ret rax = Except.error (2 ^ 64 - rax) ↔ 2 ^ 64 - 4095 ≤ rax) ∧
    (rax ≤ 2 ^ 64 - 4096 →
      remote_syscall_ret rax
        = Except.ok (if rax < 2 ^ 63 then (rax : Int) else (rax : Int) - 2 ^ 64)) := by
  have hcond : (2 ^ 64 - 4096 ≤ r % 2 ^ 64) ↔ (-4096 ≤ r ∧ r ≤ -1) := by
    omega
  have hmain : syscall_ret r
      = if -4096 ≤ r ∧ r ≤ -1 then Except.error (-r) else Except.ok r := by
    unfold syscall_ret
    by_cases hc : (2 : Int) ^ 64 - 4096 ≤ r % 2 ^ 64
    · rw [if_pos hc, if_pos (hcond.mp hc)]
    · rw [if_neg hc, if_neg (fun h => hc (hcond.mpr h))]
  have hmain2 : remote_syscall_ret rax
      = if 2 ^ 64 - 4095 ≤ rax then Except.error (2 ^ 64 - rax)
        else Except.ok (if rax < 2 ^ 63 then (rax : Int) else (rax : Int) - 2 ^ 64) := by
    unfold remote_syscall_ret
    by_cases hc : 2 ^ 64 - 4096 < rax
    · have hge : 2 ^ 64 - 4095 ≤ rax := by omega
      rw [if_pos hc, if_pos hge]
    · have hge : ¬ (2 ^ 64 - 4095 ≤ rax) := by omega
      rw [if_neg hc, if_neg hge]
  refine ⟨?_, ?_, ?_, ?_⟩
  · rw [hmain]
    by_cases h : -4096 ≤ r ∧ r ≤ -1
    · simp [h]
    · simp [h]
  · intro h
    rw [hmain, if_neg h]
  · rw [hmain2]
    by_cases h : 2 ^ 64 - 4095 ≤ rax
    · simp [h]
    · simp [h]
  · intro h
    have hge : ¬ (2 ^ 64 - 4095 ≤ rax) := by omega
    rw [hmain2, if_neg hge]

/-- Witness for C7 (amended) at `r = −1`, `rax = 5`. -/
theorem syscall_ret_ranges_witness :
    syscall_ret (-1) = Except.error 1 ∧ remote_syscall_ret 5 = Except.ok 5 := by
  have h := syscall_ret_ranges (-1) (by norm_num) (by norm_num) 5 (by norm_num)
  refine ⟨?_, ?_⟩
  · have := h.1.mpr (by norm_num)
    simpa using this
  · have := h.2.2.2 (by norm_num)
    simpa using this

/-- C2 counterexample: an input whose first line decodes fine and whose
second line fails makes the whole decode fail — no map is returned, the
bad line is not dropped. -/
theorem decode_proc_maps_not_lenient :
    (∃ e, parse_proc_maps_entry
        "00400000-00452000 r-xp 00000000 08:02 173521 /usr/bin/dbus-daemon".toList
        = Except.ok e) ∧
    decode_proc_maps "00400000-00452000 r-xp 00000000 08:02 173521 /usr/bin/dbus-daemon\n???"
      = Except.error "???".toList := by
  constructor
  · exact ⟨_, rfl⟩
  · rfl

theorem collectEntries_all_or_nothing (ls : List (List Char)) :
    (∃ es, collectEntries ls = Except.ok es) ↔
      (∀ line ∈ ls, ∃ e, parse_proc_maps_entry line = Except.ok e) := by
  induction ls with
  | nil =>
    constructor
    · intro _ line hline
      simp at hline
    · intro _
      exact ⟨[], rfl⟩
  | cons l rest ih =>
    constructor
    · rintro ⟨es, hes⟩
      unfold collectEntries at hes
      cases hl : parse_proc_maps_entry l with
      | error err => rw [hl] at hes; exact absurd hes (by simp)
      | ok e =>
        rw [hl] at hes
        intro line hline
        rcases List.mem_cons.mp hline with h | h
        · exact ⟨e, h ▸ hl⟩
        · cases hrest : collectEntries rest with
          | error err => rw [hrest] at hes; exact absurd hes (by simp)
          | ok es' => exact (ih.mp ⟨es', hrest⟩) line h
    · intro hall
      rcases hall l (by simp) with ⟨e, he⟩
      rcases ih.mpr (fun line hline => hall line (by simp [hline])) with ⟨es', hes'⟩
      refine ⟨e :: es', ?_⟩
      unfold collectEntries
      rw [he, hes']

/-- C2 as amended: `decode_proc_maps` returns a map if and only if
every line of the input parses; a single bad line makes the whole
decode fail instead of being dropped. -/
theorem decode_proc_maps_all_or_nothing (contents : String) :
    (∃ es, decode_proc_maps contents = Except.ok es) ↔
      (∀ line ∈ rustLines contents, ∃ e, parse_proc_maps_entry line = Except.ok e) :=
  collectEntries_all_or_nothing (rustLines contents)

/-- Digit characters below the base have the expected class and value. -/
theorem digitChar_facts : ∀ d < 16,
    isHexDigitChar (digitChar d) = true ∧ hexDigitVal (digitChar d) = d ∧
    isWsChar (digitChar d) = false ∧ (d < 10 → isDigitChar (digitChar d) = true) := by
  decide

theorem hexDigitVal_lt (c : Char) : hexDigitVal c < 16 := by
  unfold hexDigitVal isDigitChar
  split_ifs with h1 h2 h3
  · simp only [Bool.and_eq_true, decide_eq_true_eq] at h1
    omega
  · omega
  · omega
  · omega

/-- The accumulator of the digit printer is a plain suffix. -/
theorem toDigitsAux_acc (base : Nat) :
    ∀ fuel n acc, toDigitsAux base fuel n acc = toDigitsAux base fuel n [] ++ acc := by
  intro fuel
  induction fuel with
  | zero => intro n acc; rfl
  | succ f ih =>
    intro n acc
    unfold toDigitsAux
    by_cases h : n < base
    · rw [if_pos h, if_pos h]
      rfl
    · rw [if_neg h, if_neg h, ih (n / base) (digitChar (n % base) :: acc),
        ih (n / base) [digitChar (n % base)]]
      simp

/-- Every character the printer emits is a digit character below the
base. -/
theorem toDigitsAux_mem (base : Nat) (hb : 1 ≤ base) :
    ∀ fuel n c, c ∈ toDigitsAux base fuel n [] → ∃ d, d < base ∧ c = digitChar d := by
  intro fuel
  induction fuel with
  | zero => intro n c hc; simp [toDigitsAux] at hc
  | succ f ih =>
    intro n c hc
    unfold toDigitsAux at hc
    by_cases h : n < base
    · rw [if_pos h] at hc
      simp at hc
      exact ⟨n, h, hc⟩
    · rw [if_neg h, toDigitsAux_acc] at hc
      rcases List.mem_append.mp hc with hc | hc
      · exact ih (n / base) c hc
      · simp at hc
        exact ⟨n % base, Nat.mod_lt _ (by omega), hc⟩

theorem digitsToNat_append_singleton (base : Nat) (ds : List Char) (c : Char) :
    digitsToNat base (ds ++ [c]) = digitsToNat base ds * base + hexDigitVal c := by
  simp [digitsToNat, List.foldl_append]

/-- Value correctness of the digit printer. -/
theorem toDigitsAux_val (base : Nat) (hb2 : 2 ≤ base) (hb16 : base ≤ 16) :
    ∀ fuel n, n < base ^ fuel → digitsToNat base (toDigitsAux base fuel n []) = n := by
  intro fuel
  induction fuel with
  | zero =>
    intro n hn
    simp at hn
    simp [hn, toDigitsAux, digitsToNat]
  | succ f ih =>
    intro n hn
    unfold toDigitsAux
    by_cases h : n < base
    · rw [if_pos h]
      have := (digitChar_facts n (by omega)).2.1
      simp [digitsToNat, this]
    · rw [if_neg h, toDigitsAux_acc, digitsToNat_append_singleton]
      have hdiv : n / base < base ^ f := by
        rw [Nat.div_lt_iff_lt_mul (by omega)]
        calc n < base ^ (f + 1) := hn
          _ = base ^ f * base := by rw [pow_succ]
      rw [ih (n / base) hdiv]
      have hmod : n % base < base := Nat.mod_lt n (by omega)
      have hdc : hexDigitVal (digitChar (n % base)) = n % base :=
        (digitChar_facts (n % base) (by omega)).2.1
      rw [hdc, Nat.mul_comm (n / base) base, Nat.div_add_mod]

theorem toDigitsAux_ne_nil (base : Nat) (fuel n : Nat) (hf : 0 < fuel) :
    toDigitsAux base fuel n [] ≠ [] := by
  cases fuel with
  | zero => omega
  | succ f =>
    unfold toDigitsAux
    by_cases h : n < base
    · rw [if_pos h]
      simp
    · rw [if_neg h, toDigitsAux_acc]
      simp

/-- Length bound: a value below `base ^ k` prints in at most `k`
digits. -/
theorem toDigitsAux_len (base : Nat) (hb2 : 2 ≤ base) :
    ∀ fuel n k, 0 < k → n < base ^ k → (toDigitsAux base fuel n []).length ≤ k := by
  intro fuel
  induction fuel with
  | zero => intro n k _ _; simp [toDigitsAux]
  | succ f ih =>
    intro n k hk hn
    unfold toDigitsAux
    by_cases h : n < base
    · rw [if_pos h]
      simpa using hk
    · rw [if_neg h, toDigitsAux_acc]
      have hk2 : 2 ≤ k := by
        by_contra hc
        have hk1 : k = 1 := by omega
        rw [hk1, pow_one] at hn
        omega
      have hdiv : n / base < base ^ (k - 1) := by
        rw [Nat.div_lt_iff_lt_mul (by omega)]
        calc n < base ^ k := hn
          _ = base ^ (k - 1) * base := by
              rw [← pow_succ]
              congr 1
              omega
      have := ih (n / base) (k - 1) (by omega) hdiv
      simp only [List.length_append, List.length_cons, List.length_nil]
      omega

theorem foldl_digits_le16 :
    ∀ (ds : List Char) (acc : Nat),
      ds.foldl (fun a c => a * 16 + hexDigitVal c) acc
        ≤ acc * 16 ^ ds.length + (16 ^ ds.length - 1) := by
  intro ds
  induction ds with
  | nil => intro acc; simp
  | cons c t ih =>
    intro acc
    have hdig : hexDigitVal c < 16 := hexDigitVal_lt c
    simp only [List.foldl_cons, List.length_cons]
    calc (t.foldl (fun a c => a * 16 + hexDigitVal c) (acc * 16 + hexDigitVal c))
        ≤ (acc * 16 + hexDigitVal c) * 16 ^ t.length + (16 ^ t.length - 1) := ih _
      _ ≤ acc * 16 ^ (t.length + 1) + (16 ^ (t.length + 1) - 1) := by
          have hpos : 1 ≤ (16 : Nat) ^ t.length := Nat.one_le_pow _ _ (by omega)
          have hstep : (16 : Nat) ^ (t.length + 1) = 16 ^ t.length * 16 :=
            pow_succ 16 t.length
          have hexp1 : (acc * 16 + hexDigitVal c) * 16 ^ t.length
              = acc * 16 ^ (t.length + 1) + hexDigitVal c * 16 ^ t.length := by
            rw [hstep]; ring
          have hDB : hexDigitVal c * 16 ^ t.length ≤ 15 * 16 ^ t.length :=
            Nat.mul_le_mul_right _ (by omega)
          omega

/-- Hex digit strings of length at most `k` denote values below
`16 ^ k`. -/
theorem digitsToNat16_lt (ds : List Char) (k : Nat) (hk : ds.length ≤ k) :
    digitsToNat 16 ds < 16 ^ k := by
  have h := foldl_digits_le16 ds 0
  have hmono : (16 : Nat) ^ ds.length ≤ 16 ^ k := Nat.pow_le_pow_right (by omega) hk
  have hpos : 1 ≤ (16 : Nat) ^ ds.length := Nat.one_le_pow _ _ (by omega)
  unfold digitsToNat
  omega

theorem hex_not_ws (c : Char) (h : isHexDigitChar c = true) : isWsChar c = false := by
  unfold isHexDigitChar isDigitChar at h
  unfold isWsChar
  simp only [Bool.or_eq_true, Bool.and_eq_true, decide_eq_true_eq] at h
  simp only [Bool.or_eq_false_iff, decide_eq_false_iff_not]
  omega

theorem takeWhile_append_exact (p : Char → Bool) (xs ys : List Char)
    (hxs : ∀ c ∈ xs, p c = true) (hys : headNot p ys) :
    (xs ++ ys).takeWhile p = xs := by
  rw [List.takeWhile_append_of_pos hxs]
  cases ys with
  | nil => simp
  | cons c t =>
    have hc : p c = false := hys
    rw [List.takeWhile_cons_of_neg (by simp [hc])]
    simp

theorem toDigitsStr_hex (base n : Nat) (hb1 : 1 ≤ base) (hb16 : base ≤ 16) :
    ∀ c ∈ toDigitsStr base n, isHexDigitChar c = true := by
  intro c hc
  rcases toDigitsAux_mem base hb1 64 n c hc with ⟨d, hd, rfl⟩
  exact (digitChar_facts d (by omega)).1

theorem toDigitsStr_not_ws (base n : Nat) (hb1 : 1 ≤ base) (hb16 : base ≤ 16) :
    ∀ c ∈ toDigitsStr base n, isWsChar c = false := by
  intro c hc
  exact hex_not_ws c (toDigitsStr_hex base n hb1 hb16 c hc)

theorem toDigitsStr10_digit (n : Nat) :
    ∀ c ∈ toDigitsStr 10 n, isDigitChar c = true := by
  intro c hc
  rcases toDigitsAux_mem 10 (by omega) 64 n c hc with ⟨d, hd, rfl⟩
  exact (digitChar_facts d (by omega)).2.2.2 hd

theorem toDigitsStr_ne_nil (base n : Nat) : toDigitsStr base n ≠ [] :=
  toDigitsAux_ne_nil base 64 n (by omega)

theorem toDigitsStr_val16 (n : Nat) (hn : n < 2 ^ 64) :
    digitsToNat 16 (toDigitsStr 16 n) = n := by
  apply toDigitsAux_val 16 (by omega) (by omega)
  calc n < 2 ^ 64 := hn
    _ ≤ 16 ^ 64 := Nat.pow_le_pow_left (by omega) 64

theorem toDigitsStr_val10 (n : Nat) (hn : n < 2 ^ 64) :
    digitsToNat 10 (toDigitsStr 10 n) = n := by
  apply toDigitsAux_val 10 (by omega) (by omega)
  calc n < 2 ^ 64 := hn
    _ ≤ 10 ^ 64 := Nat.pow_le_pow_left (by omega) 64

theorem digitsToNat_replicate_zero (base : Nat) :
    ∀ (k : Nat) (ds : List Char),
      digitsToNat base (List.replicate k '0' ++ ds) = digitsToNat base ds := by
  intro k
  induction k with
  | zero => intro ds; simp
  | succ m ih =>
    intro ds
    have h0 : hexDigitVal '0' = 0 := by decide
    simp only [List.replicate_succ, List.cons_append, digitsToNat, List.foldl_cons,
      Nat.zero_mul, h0, Nat.add_zero]
    exact ih ds

theorem hexPad_hex (w n : Nat) : ∀ c ∈ hexPad w n, isHexDigitChar c = true := by
  intro c hc
  unfold hexPad at hc
  rcases List.mem_append.mp hc with hc | hc
  · have : c = '0' := List.eq_of_mem_replicate hc
    rw [this]
    decide
  · exact toDigitsStr_hex 16 n (by omega) (by omega) c hc

theorem hexPad_val (w n : Nat) (hn : n < 2 ^ 64) :
    digitsToNat 16 (hexPad w n) = n := by
  unfold hexPad
  rw [digitsToNat_replicate_zero]
  exact toDigitsStr_val16 n hn

theorem hexPad_ne_nil (w n : Nat) : hexPad w n ≠ [] := by
  unfold hexPad
  intro h
  rcases List.append_eq_nil.mp h with ⟨_, h2⟩
  exact toDigitsStr_ne_nil 16 n h2

theorem hexPad2_length (n : Nat) (hn : n < 256) : (hexPad 2 n).length = 2 := by
  have hle : (toDigitsStr 16 n).length ≤ 2 :=
    toDigitsAux_len 16 (by omega) 64 n 2 (by omega) (by norm_num; omega)
  have hne : (toDigitsStr 16 n).length ≠ 0 := by
    intro h
    exact toDigitsStr_ne_nil 16 n (List.length_eq_zero.mp h)
  unfold hexPad
  rw [List.length_append, List.length_replicate]
  omega

theorem spacesDrop_sp_cons (l : List Char) : spacesDrop (' ' :: l) = spacesDrop l := by
  unfold spacesDrop
  rw [List.dropWhile_cons_of_pos (by decide)]

theorem spacesDrop_of_headNot (l : List Char) (h : headNot isWsChar l) :
    spacesDrop l = l := by
  cases l with
  | nil => rfl
  | cons c t =>
    have hc : isWsChar c = false := h
    unfold spacesDrop
    rw [List.dropWhile_cons_of_neg (by simp [hc])]

theorem spacesDrop_replicate (k : Nat) (l : List Char) :
    spacesDrop (List.replicate k ' ' ++ l) = spacesDrop l := by
  unfold spacesDrop
  rw [List.dropWhile_append_of_pos]
  intro c hc
  have : c = ' ' := List.eq_of_mem_replicate hc
  rw [this]
  decide

/-- `hex_value` on a hex-digit block followed by a non-hex remainder. -/
theorem hex_value_exact (ds rest : List Char) (hne : ds ≠ [])
    (hhex : ∀ c ∈ ds, isHexDigitChar c = true) (hrest : headNot isHexDigitChar rest)
    (hval : digitsToNat 16 ds < 2 ^ 64) :
    hex_value (ds ++ rest) = some (digitsToNat 16 ds, rest) := by
  unfold hex_value
  rw [takeWhile_append_exact isHexDigitChar ds rest hhex hrest]
  rw [if_neg (by simp [hne]), List.drop_left]
  unfold hexNum
  rw [if_pos hval]

/-- `dec_value` on a decimal-digit block followed by a non-hex
remainder. -/
theorem dec_value_exact (ds rest : List Char) (hne : ds ≠ [])
    (hdec : ∀ c ∈ ds, isDigitChar c = true) (hrest : headNot isHexDigitChar rest)
    (hval : digitsToNat 10 ds < 2 ^ 64) :
    dec_value (ds ++ rest) = some (digitsToNat 10 ds, rest) := by
  have hhex : ∀ c ∈ ds, isHexDigitChar c = true := by
    intro c hc
    unfold isHexDigitChar
    rw [hdec c hc]
    rfl
  unfold dec_value
  rw [takeWhile_append_exact isHexDigitChar ds rest hhex hrest]
  rw [if_neg (by simp [hne]), List.drop_left]
  unfold decNum
  rw [if_pos ⟨List.all_eq_true.mpr hdec, hval⟩]

theorem headNot_ws_of_hex (l rest : List Char) (hne : l ≠ [])
    (hall : ∀ c ∈ l, isHexDigitChar c = true) : headNot isWsChar (l ++ rest) := by
  cases l with
  | nil => exact absurd rfl hne
  | cons c t =>
    show isWsChar c = false
    exact hex_not_ws c (hall c (by simp))

/-- Round trip of the four protection characters for parse-produced
prot/flags values. -/
theorem protValue_roundtrip (prot flags : Nat) (hp : prot < 8)
    (hf : flags = 0 ∨ flags = 1 ∨ flags = 2) (rest : List Char) :
    protValue (' ' :: (format_prot_flags prot flags ++ rest)) = some ((prot, flags), rest) := by
  interval_cases prot <;> rcases hf with hf | hf | hf <;> subst hf <;> rfl

/-- Round trip of the `major:minor` device field for parse-produced
device numbers. -/
theorem devValue_roundtrip (d : Nat) (hd : d < 65536) (rest : List Char) :
    devValue (' ' :: (hexPad 2 (d / 2 ^ 8) ++ (':' :: (hexPad 2 (d &&& 255) ++ rest))))
      = some (d, rest) := by
  have hmin_eq : d &&& 255 = d % 256 := by
    have h255 : (255 : Nat) = 2 ^ 8 - 1 := by norm_num
    rw [h255, Nat.and_pow_two_sub_one_eq_mod]
  have hmaj : d / 2 ^ 8 < 256 := by omega
  have hmin : d &&& 255 < 256 := by omega
  have hlenM : (hexPad 2 (d / 2 ^ 8)).length = 2 := hexPad2_length _ hmaj
  have hlenm : (hexPad 2 (d &&& 255)).length = 2 := hexPad2_length _ hmin
  simp only [devValue]
  rw [spacesDrop_sp_cons,
    spacesDrop_of_headNot _ (headNot_ws_of_hex _ _ (hexPad_ne_nil _ _) (hexPad_hex _ _))]
  rw [takeWhile_append_exact isHexDigitChar _ _ (hexPad_hex _ _) (by exact rfl)]
  rw [List.take_of_length_le (by omega), hlenM, List.drop_left' hlenM]
  dsimp only
  rw [if_pos rfl]
  rw [List.takeWhile_append_of_pos (hexPad_hex _ _), List.take_left' hlenm,
    hlenm, List.drop_left' hlenm]
  have hvM : digitsToNat 16 (hexPad 2 (d / 2 ^ 8)) = d / 2 ^ 8 :=
    hexPad_val _ _ (by omega)
  have hvm : digitsToNat 16 (hexPad 2 (d &&& 255)) = d &&& 255 :=
    hexPad_val _ _ (by omega)
  rw [hvM, hvm]
  have hval : d / 2 ^ 8 * 256 + (d &&& 255) = d := by omega
  rw [hval]

theorem headNot_dropWhile (p : Char → Bool) (l : List Char) :
    headNot p (l.dropWhile p) := by
  induction l with
  | nil => trivial
  | cons c t ih =>
    by_cases hc : p c
    · rw [List.dropWhile_cons_of_pos hc]
      exact ih
    · rw [List.dropWhile_cons_of_neg hc]
      show p c = false
      simpa using hc

theorem filepathValue_none_pad (k : Nat) :
    filepathValue (List.replicate k ' ') = (none, []) := by
  unfold filepathValue
  have h1 : spacesDrop (List.replicate k ' ') = [] := by
    have := spacesDrop_replicate k []
    simpa using this
  rw [h1]
  rfl

theorem filepathValue_some_pad (k : Nat) (p : List Char) (hne : p ≠ [])
    (hhead : headNot isWsChar p)
    (hcrlf : ∀ c ∈ p, notCrLf c = true) :
    filepathValue (List.replicate k ' ' ++ p) = (some p, []) := by
  have htw : p.takeWhile notCrLf = p :=
    List.takeWhile_eq_self_iff.mpr hcrlf
  simp only [filepathValue]
  rw [spacesDrop_replicate, spacesDrop_of_headNot p hhead, htw,
    if_neg (by simp [hne]), List.drop_length]

theorem hexNum_lt (ds : List Char) : hexNum ds < 2 ^ 64 := by
  unfold hexNum
  split <;> omega

theorem decNum_lt (ds : List Char) : decNum ds < 2 ^ 64 := by
  unfold decNum
  split <;> omega

theorem hex_value_lt (cs : List Char) (v : Nat) (r : List Char)
    (h : hex_value cs = some (v, r)) : v < 2 ^ 64 := by
  unfold hex_value at h
  by_cases he : (cs.takeWhile isHexDigitChar).isEmpty
  · rw [if_pos he] at h
    cases h
  · rw [if_neg he] at h
    obtain ⟨hv, _⟩ := Prod.mk.inj (Option.some.inj h)
    rw [← hv]
    exact hexNum_lt _

theorem dec_value_lt (cs : List Char) (v : Nat) (r : List Char)
    (h : dec_value cs = some (v, r)) : v < 2 ^ 64 := by
  unfold dec_value at h
  by_cases he : (cs.takeWhile isHexDigitChar).isEmpty
  · rw [if_pos he] at h
    cases h
  · rw [if_neg he] at h
    obtain ⟨hv, _⟩ := Prod.mk.inj (Option.some.inj h)
    rw [← hv]
    exact decNum_lt _

theorem protValue_bounds (cs : List Char) (p f : Nat) (r : List Char)
    (h : protValue cs = some ((p, f), r)) :
    p < 8 ∧ (f = 0 ∨ f = 1 ∨ f = 2) := by
  unfold protValue at h
  split at h
  · rename_i rc wc xc pc rest heq
    split at h
    · rename_i hcond
      obtain ⟨hpf, _⟩ := Prod.mk.inj (Option.some.inj h)
      obtain ⟨hp, hf⟩ := Prod.mk.inj hpf
      constructor
      · rw [← hp]
        have h1 : (if rc = 'r' then 1 else 0) < 2 ^ 3 := by split <;> omega
        have h2 : (if wc = 'w' then 2 else 0) < 2 ^ 3 := by split <;> omega
        have h3 : (if xc = 'x' then 4 else 0) < 2 ^ 3 := by split <;> omega
        calc ((if rc = 'r' then 1 else 0) ||| (if wc = 'w' then 2 else 0)) |||
              (if xc = 'x' then 4 else 0)
            < 2 ^ 3 := Nat.or_lt_two_pow (Nat.or_lt_two_pow h1 h2) h3
          _ = 8 := by norm_num
      · rw [← hf]
        by_cases hp' : pc = 'p'
        · rw [if_pos hp']; omega
        · rw [if_neg hp']
          by_cases hs : pc = 's'
          · rw [if_pos hs]; omega
          · rw [if_neg hs]; omega
    · cases h
  · cases h

theorem devValue_bounds (cs : List Char) (v : Nat) (r : List Char)
    (h : devValue cs = some (v, r)) : v < 65536 := by
  simp only [devValue] at h
  split at h
  · rename_i c cs3 heq
    split at h
    · obtain ⟨hv, _⟩ := Prod.mk.inj (Option.some.inj h)
      rw [← hv]
      have hM : digitsToNat 16 ((List.takeWhile isHexDigitChar (spacesDrop cs)).take 2) < 256 := by
        have := digitsToNat16_lt ((List.takeWhile isHexDigitChar (spacesDrop cs)).take 2) 2
          (by simpa using List.length_take_le 2 _)
        simpa using this
      have hm : digitsToNat 16 ((List.takeWhile isHexDigitChar cs3).take 2) < 256 := by
        have := digitsToNat16_lt ((List.takeWhile isHexDigitChar cs3).take 2) 2
          (by simpa using List.length_take_le 2 _)
        simpa using this
      omega
    · cases h
  · cases h

theorem filepathValue_wf (cs : List Char) (file : Option (List Char)) (r : List Char)
    (h : filepathValue cs = (file, r)) :
    file = none ∨
      ∃ c t, file = some (c :: t) ∧ isWsChar c = false ∧
        ∀ ch ∈ c :: t, notCrLf ch = true := by
  simp only [filepathValue] at h
  by_cases he : ((spacesDrop cs).takeWhile notCrLf).isEmpty
  · left
    rw [if_pos he] at h
    exact (Prod.mk.inj h.symm).1
  · right
    rw [if_neg he] at h
    obtain ⟨hfile, _⟩ := Prod.mk.inj h
    cases hsd : spacesDrop cs with
    | nil =>
      rw [hsd] at he
      simp at he
    | cons c0 t0 =>
      have hws : isWsChar c0 = false := by
        have h0 := headNot_dropWhile isWsChar cs
        have h1 : headNot isWsChar (spacesDrop cs) := h0
        rw [hsd] at h1
        exact h1
      rw [hsd] at hfile
      by_cases hq : notCrLf c0 = true
      · rw [List.takeWhile_cons_of_pos hq] at hfile
        refine ⟨c0, (t0.takeWhile notCrLf), hfile.symm, hws, ?_⟩
        intro ch hch
        rcases List.mem_cons.mp hch with hch | hch
        · rw [hch]; exact hq
        · exact List.mem_takeWhile_imp hch
      · rw [hsd] at he
        rw [List.takeWhile_cons_of_neg (by simpa using hq)] at he
        simp at he

/-- Every successfully parsed entry is well-formed. -/
theorem parseMapsEntry_wf (cs : List Char) (e : ProcMapsEntry) (rest : List Char)
    (h : parseMapsEntry cs = some (e, rest)) : wfEntry e := by
  unfold parseMapsEntry at h
  cases h1 : hex_value cs with
  | none => rw [h1] at h; cases h
  | some p1 =>
    rw [h1] at h
    obtain ⟨fromAddr, cs1⟩ := p1
    dsimp only at h
    cases cs1 with
    | nil => cases h
    | cons c cs2 =>
      dsimp only at h
      by_cases hc : c = '-'
      · rw [if_pos hc] at h
        cases h3 : hex_value cs2 with
        | none => rw [h3] at h; cases h
        | some p3 =>
          rw [h3] at h
          obtain ⟨toAddr, cs3⟩ := p3
          dsimp only at h
          cases h4 : protValue cs3 with
          | none => rw [h4] at h; cases h
          | some p4 =>
            rw [h4] at h
            obtain ⟨⟨prot, flags⟩, cs4⟩ := p4
            dsimp only at h
            cases h6 : hex_value (spacesDrop cs4) with
            | none => rw [h6] at h; cases h
            | some p6 =>
              rw [h6] at h
              obtain ⟨offset, cs6⟩ := p6
              dsimp only at h
              cases h7 : devValue cs6 with
              | none => rw [h7] at h; cases h
              | some p7 =>
                rw [h7] at h
                obtain ⟨dev, cs7⟩ := p7
                dsimp only at h
                cases h9 : dec_value (spacesDrop cs7) with
                | none => rw [h9] at h; cases h
                | some p9 =>
                  rw [h9] at h
                  obtain ⟨inode, cs9⟩ := p9
                  dsimp only at h
                  cases h10 : filepathValue cs9 with
                  | mk file cs10 =>
                    rw [h10] at h
                    dsimp only at h
                    obtain ⟨he, _⟩ := Prod.mk.inj (Option.some.inj h)
                    obtain ⟨hp8, hf⟩ := protValue_bounds cs3 prot flags cs4 h4
                    subst he
                    exact ⟨hex_value_lt cs fromAddr (c :: cs2) h1,
                      Nat.mod_lt _ (by norm_num), hp8, hf,
                      hex_value_lt _ offset cs6 h6,
                      devValue_bounds cs6 dev cs7 h7,
                      dec_value_lt _ inode cs9 h9,
                      filepathValue_wf cs9 file cs10 h10⟩
      · rw [if_neg hc] at h
        cases h

theorem hex_value_exact_cons (ds : List Char) (c : Char) (rest : List Char)
    (hne : ds ≠ []) (hhex : ∀ x ∈ ds, isHexDigitChar x = true)
    (hc : isHexDigitChar c = false) (hval : digitsToNat 16 ds < 2 ^ 64) :
    hex_value (ds ++ c :: rest) = some (digitsToNat 16 ds, c :: rest) :=
  hex_value_exact ds (c :: rest) hne hhex hc hval

theorem dec_value_exact_pad (ds : List Char) (k : Nat) (rest : List Char)
    (hne : ds ≠ []) (hdec : ∀ c ∈ ds, isDigitChar c = true)
    (hval : digitsToNat 10 ds < 2 ^ 64) :
    dec_value (ds ++ (List.replicate (k + 1) ' ' ++ rest))
      = some (digitsToNat 10 ds, List.replicate (k + 1) ' ' ++ rest) :=
  dec_value_exact ds _ hne hdec (show isHexDigitChar ' ' = false by decide) hval

/-- Parsing the assembled pieces recovers the original fields. -/
theorem parse_assembled (base size prot flags offset dev inode : Nat)
    (file : Option (List Char)) (K : Nat)
    (hbase : base < 2 ^ 64) (hsize : size < 2 ^ 64) (hprot : prot < 8)
    (hflags : flags = 0 ∨ flags = 1 ∨ flags = 2) (hoff : offset < 2 ^ 64)
    (hdev : dev < 65536) (hinode : inode < 2 ^ 64)
    (hfile : file = none ∨ ∃ c t, file = some (c :: t) ∧ isWsChar c = false ∧
      ∀ ch ∈ c :: t, notCrLf ch = true) :
    parseMapsEntry (assembled base size prot flags offset dev inode file K)
      = some (⟨base, size, prot, flags, offset, dev, inode, file⟩, []) := by
  have hto : (base + size) % 2 ^ 64 < 2 ^ 64 := Nat.mod_lt _ (by norm_num)
  unfold assembled parseMapsEntry
  -- base address
  rw [hex_value_exact_cons (toDigitsStr 16 base) '-' _ (toDigitsStr_ne_nil _ _)
      (toDigitsStr_hex 16 base (by omega) (by omega)) (by decide)
      (by rw [toDigitsStr_val16 base hbase]; exact hbase),
    toDigitsStr_val16 base hbase]
  dsimp only
  rw [if_pos rfl]
  -- end address
  rw [hex_value_exact_cons (toDigitsStr 16 ((base + size) % 2 ^ 64)) ' ' _
      (toDigitsStr_ne_nil _ _) (toDigitsStr_hex 16 _ (by omega) (by omega)) (by decide)
      (by rw [toDigitsStr_val16 _ hto]; exact hto),
    toDigitsStr_val16 _ hto]
  dsimp only
  -- protection characters
  rw [protValue_roundtrip prot flags hprot hflags]
  dsimp only
  -- offset
  rw [spacesDrop_sp_cons,
    spacesDrop_of_headNot _ (headNot_ws_of_hex _ _ (hexPad_ne_nil _ _) (hexPad_hex _ _)),
    hex_value_exact_cons (hexPad 8 offset) ' ' _ (hexPad_ne_nil _ _)
      (hexPad_hex 8 offset) (by decide)
      (by rw [hexPad_val 8 offset hoff]; exact hoff),
    hexPad_val 8 offset hoff]
  dsimp only
  -- device numbers
  rw [devValue_roundtrip dev hdev]
  dsimp only
  -- inode
  rw [spacesDrop_sp_cons,
    spacesDrop_of_headNot _ (headNot_ws_of_hex _ _ (toDigitsStr_ne_nil 10 inode)
      (toDigitsStr_hex 10 inode (by omega) (by omega))),
    dec_value_exact_pad (toDigitsStr 10 inode) K _ (toDigitsStr_ne_nil 10 inode)
      (toDigitsStr10_digit inode)
      (by rw [toDigitsStr_val10 _ hinode]; exact hinode),
    toDigitsStr_val10 _ hinode]
  dsimp only
  -- path
  have hsz : ((base + size) % 2 ^ 64 + 2 ^ 64 - base) % 2 ^ 64 = size := by omega
  rcases hfile with hnone | ⟨c, t, hsome, hws, hcrlf⟩
  · subst hnone
    rw [show (match (none : Option (List Char)) with
        | some p => p | none => ([] : List Char)) = [] from rfl]
    rw [List.append_nil, filepathValue_none_pad]
    dsimp only
    rw [hsz]
  · subst hsome
    rw [show (match (some (c :: t) : Option (List Char)) with
        | some p => p | none => ([] : List Char)) = c :: t from rfl]
    rw [filepathValue_some_pad (K + 1) (c :: t) (by simp)
      (show isWsChar c = false from hws) hcrlf]
    dsimp only
    rw [hsz]

/-- The Debug formatter produces exactly the assembled pieces. -/
theorem fmtEntry_eq_assembled (base size prot flags offset dev inode : Nat)
    (file : Option (List Char)) :
    fmtEntry ⟨base, size, prot, flags, offset, dev, inode, file⟩
      = assembled base size prot flags offset dev inode file
          ((72 + 2 ^ 64 -
            (fmtHeader ⟨base, size, prot, flags, offset, dev, inode, file⟩).length) % 2 ^ 64) := by
  simp [fmtEntry, fmtHeader, assembled, List.append_assoc]

/-- Formatting a well-formed entry and re-parsing recovers it exactly,
with no residual input. -/
theorem fmt_parse (e : ProcMapsEntry) (hwf : wfEntry e) :
    parseMapsEntry (fmtEntry e) = some (e, []) := by
  obtain ⟨base, size, prot, flags, offset, dev, inode, file⟩ := e
  obtain ⟨hbase, hsize, hprot, hflags, hoff, hdev, hinode, hfile⟩ := hwf
  rw [fmtEntry_eq_assembled]
  exact parse_assembled base size prot flags offset dev inode file _
    hbase hsize hprot hflags hoff hdev hinode hfile

/-- C8: every entry decoded from a VM-map line, when re-formatted by the
Debug formatter and re-parsed, is recovered equal in every field. -/
theorem proc_maps_entry_roundtrip (line : List Char) (e : ProcMapsEntry)
    (h : parse_proc_maps_entry line = Except.ok e) :
    parse_proc_maps_entry (fmtEntry e) = Except.ok e := by
  unfold parse_proc_maps_entry at h ⊢
  cases hp : parseMapsEntry line with
  | none => rw [hp] at h; cases h
  | some pr =>
    rw [hp] at h
    obtain ⟨e', rest⟩ := pr
    dsimp only at h
    cases h
    have hwf := parseMapsEntry_wf line e rest hp
    rw [fmt_parse e hwf]

/-- Witness for C8 at a concrete maps line. -/
theorem proc_maps_entry_roundtrip_witness :
    parse_proc_maps_entry
        (fmtEntry ⟨0x400000, 0x52000, 5, 2, 0, 0x802, 173521,
          some "/usr/bin/dbus-daemon".toList⟩)
      = Except.ok ⟨0x400000, 0x52000, 5, 2, 0, 0x802, 173521,
          some "/usr/bin/dbus-daemon".toList⟩ :=
  proc_maps_entry_roundtrip
    "00400000-00452000 r-xp 00000000 08:02 173521 /usr/bin/dbus-daemon".toList
    _ rfl

/-- C9: immediately after the exec reset, the patched set, unpatchable
set, stub-page list and memory-map snapshot read through the task's
handles are all empty, and the trampoline load address is unset. -/
theorem task_exec_reset_clears (t : TracedTask) (s : Store) :
    (task_exec_reset t s).2.patchedOf (task_exec_reset t s).1.patched_syscalls = [] ∧
    (task_exec_reset t s).2.unpatchableOf (task_exec_reset t s).1.unpatchable_syscalls = [] ∧
    (task_exec_reset t s).2.stubPagesOf (task_exec_reset t s).1.stub_pages = [] ∧
    (task_exec_reset t s).2.memMapOf (task_exec_reset t s).1.memory_map = [] ∧
    (task_exec_reset t s).1.ldpreload_address = none := by
  refine ⟨?_, ?_, ?_, ?_, rfl⟩ <;>
    simp [task_exec_reset, Store.setPatched, Store.setUnpatchable, Store.setMemMap,
      Store.setStubPages, Store.setLockset, updFn]

/-- After a successful `do_ptrace_exec`, the task's state is
`Exited(0)` — set by `task_exec_reset` and never changed afterwards. -/
theorem do_ptrace_exec_state (w : ExecWorld) (t : TracedTask) (s : Store)
    (σ : SystraceState) (t' : TracedTask) (s' : Store) (σ' : SystraceState)
    (h : do_ptrace_exec w t s σ = some (t', s', σ')) :
    t'.state = TaskState.Exited 0 := by
  unfold do_ptrace_exec at h
  repeat' split at h
  all_goals cases h
  all_goals rfl

/-- C3: a task whose recorded event is `PTRACE_EVENT_EXEC` (the
Running-task exec stop) is returned `Runnable` by `handle_ptrace_event`
with execution state `Exited(0)` — not `Ready` as the specification's
transition table states. -/
theorem handle_exec_event_not_ready (w : World) (t : TracedTask) (s : Store)
    (σ : SystraceState) (r : RunTask × Store × SystraceState)
    (hst : t.state = TaskState.Event PTRACE_EVENT_EXEC)
    (h : handle_ptrace_event w t s σ = some r) :
    ∃ t', r.1 = RunTask.Runnable t' ∧ t'.state = TaskState.Exited 0 ∧
      t'.state ≠ TaskState.Ready := by
  unfold handle_ptrace_event at h
  rw [hst] at h
  dsimp only at h
  rw [if_neg (by decide), if_neg (by decide), if_neg (by decide), if_pos rfl] at h
  cases hx : do_ptrace_exec w.exec t s σ with
  | none => rw [hx] at h; cases h
  | some res =>
    rw [hx] at h
    obtain ⟨t', s', σ'⟩ := res
    have hstate := do_ptrace_exec_state w.exec t s σ t' s' σ' hx
    refine ⟨t', ?_, hstate, by rw [hstate]; decide⟩
    have := Option.some.inj h
    rw [← this]

/-- Witness: a concrete Running task hitting the exec event with every
external call succeeding ends up `Runnable` but `Exited(0)`. -/
theorem handle_exec_event_not_ready_witness :
    ∃ t', (handle_ptrace_event
        ⟨fun _ => none, none, none, true, SkipOutcome.ok, true, none, none, true, true, [],
          ⟨some 0, true, true, true, true, true, false, some SYSTRACE_GLOBAL_STATE_ADDR, true⟩⟩
        ⟨3, 3, 1, 3, false, none, TaskState.Event PTRACE_EVENT_EXEC, some 0x70000000,
          none, none, none, 0, 0, 0, 0, 0⟩
        ⟨fun _ => [], fun _ => [], fun _ => [], fun _ => [], fun _ => RemoteRWLock.new, 1⟩
        ⟨0, 0, 0, 0, 0, 0, 0⟩).map (fun r => r.1)
      = some (RunTask.Runnable t') ∧ t'.state = TaskState.Exited 0 ∧
      t'.state ≠ TaskState.Ready := by
  cases hE : handle_ptrace_event
      ⟨fun _ => none, none, none, true, SkipOutcome.ok, true, none, none, true, true, [],
        ⟨some 0, true, true, true, true, true, false, some SYSTRACE_GLOBAL_STATE_ADDR, true⟩⟩
      ⟨3, 3, 1, 3, false, none, TaskState.Event PTRACE_EVENT_EXEC, some 0x70000000,
        none, none, none, 0, 0, 0, 0, 0⟩
      ⟨fun _ => [], fun _ => [], fun _ => [], fun _ => [], fun _ => RemoteRWLock.new, 1⟩
      ⟨0, 0, 0, 0, 0, 0, 0⟩ with
  | none =>
      have hs : (handle_ptrace_event
          ⟨fun _ => none, none, none, true, SkipOutcome.ok, true, none, none, true, true, [],
            ⟨some 0, true, true, true, true, true, false, some SYSTRACE_GLOBAL_STATE_ADDR, true⟩⟩
          ⟨3, 3, 1, 3, false, none, TaskState.Event PTRACE_EVENT_EXEC, some 0x70000000,
            none, none, none, 0, 0, 0, 0, 0⟩
          ⟨fun _ => [], fun _ => [], fun _ => [], fun _ => [], fun _ => RemoteRWLock.new, 1⟩
          ⟨0, 0, 0, 0, 0, 0, 0⟩).isSome = true := rfl
      rw [hE] at hs
      cases hs
  | some r =>
      obtain ⟨t', h1, h2, h3⟩ := handle_exec_event_not_ready _ _ _ _ r rfl hE
      exact ⟨t', congrArg some h1, h2, h3⟩

/-- C4: counterexample.  `TracedTask::forked` does not snapshot the
per-site lockset: the child's lockset slot is initialised with
`RemoteRWLock::new()`, so a parent holding a read lock at fork time sees
different contents through the child's handle than through its own. -/
theorem forked_lockset_not_snapshotted :
    (TracedTask.forked
        ⟨7, 7, 1, 7, false, none, TaskState.Ready, none, none, none, none,
         0, 0, 0, 0, 0⟩
        ⟨fun _ => [], fun _ => [], fun _ => [], fun _ => [],
         fun _ => ⟨[(7, 4096)], []⟩, 1⟩ 9).2.locksetOf
      (TracedTask.forked
        ⟨7, 7, 1, 7, false, none, TaskState.Ready, none, none, none, none,
         0, 0, 0, 0, 0⟩
        ⟨fun _ => [], fun _ => [], fun _ => [], fun _ => [],
         fun _ => ⟨[(7, 4096)], []⟩, 1⟩ 9).1.syscall_patch_lockset
    ≠ (⟨fun _ => [], fun _ => [], fun _ => [], fun _ => [],
        fun _ => ⟨[(7, 4096)], []⟩, 1⟩ : Store).locksetOf
      (⟨7, 7, 1, 7, false, none, TaskState.Ready, none, none, none, none,
        0, 0, 0, 0, 0⟩ : TracedTask).syscall_patch_lockset := by
  decide

/-- C4: amended.  On fork/vfork the child receives a fresh slot for every
address-space-scoped structure; the memory map, stub-page list,
unpatchable set and patched set are value snapshots of the parent's
contents, while the lockset starts over from `RemoteRWLock.new` rather
than a snapshot; the child's handles differ from the parent's and a
write through either side's handle is not observable through the other
side's handle. -/
theorem forked_snapshots (t : TracedTask) (s : Store) (p : Nat)
    (hv : t.validIn s) :
    ((t.forked s p).2.memMapOf (t.forked s p).1.memory_map
        = s.memMapOf t.memory_map) ∧
    ((t.forked s p).2.stubPagesOf (t.forked s p).1.stub_pages
        = s.stubPagesOf t.stub_pages) ∧
    ((t.forked s p).2.unpatchableOf (t.forked s p).1.unpatchable_syscalls
        = s.unpatchableOf t.unpatchable_syscalls) ∧
    ((t.forked s p).2.patchedOf (t.forked s p).1.patched_syscalls
        = s.patchedOf t.patched_syscalls) ∧
    ((t.forked s p).2.locksetOf (t.forked s p).1.syscall_patch_lockset
        = RemoteRWLock.new) ∧
    ((t.forked s p).1.memory_map ≠ t.memory_map ∧
     (t.forked s p).1.stub_pages ≠ t.stub_pages ∧
     (t.forked s p).1.unpatchable_syscalls ≠ t.unpatchable_syscalls ∧
     (t.forked s p).1.patched_syscalls ≠ t.patched_syscalls ∧
     (t.forked s p).1.syscall_patch_lockset ≠ t.syscall_patch_lockset) ∧
    (∀ v, ((t.forked s p).2.setMemMap (t.forked s p).1.memory_map v).memMapOf
        t.memory_map = s.memMapOf t.memory_map) ∧
    (∀ v, ((t.forked s p).2.setMemMap t.memory_map v).memMapOf
        (t.forked s p).1.memory_map = s.memMapOf t.memory_map) ∧
    (∀ v, ((t.forked s p).2.setStubPages (t.forked s p).1.stub_pages v).stubPagesOf
        t.stub_pages = s.stubPagesOf t.stub_pages) ∧
    (∀ v, ((t.forked s p).2.setStubPages t.stub_pages v).stubPagesOf
        (t.forked s p).1.stub_pages = s.stubPagesOf t.stub_pages) ∧
    (∀ v, ((t.forked s p).2.setUnpatchable (t.forked s p).1.unpatchable_syscalls v).unpatchableOf
        t.unpatchable_syscalls = s.unpatchableOf t.unpatchable_syscalls) ∧
    (∀ v, ((t.forked s p).2.setUnpatchable t.unpatchable_syscalls v).unpatchableOf
        (t.forked s p).1.unpatchable_syscalls = s.unpatchableOf t.unpatchable_syscalls) ∧
    (∀ v, ((t.forked s p).2.setPatched (t.forked s p).1.patched_syscalls v).patchedOf
        t.patched_syscalls = s.patchedOf t.patched_syscalls) ∧
    (∀ v, ((t.forked s p).2.setPatched t.patched_syscalls v).patchedOf
        (t.forked s p).1.patched_syscalls = s.patchedOf t.patched_syscalls) ∧
    (∀ v, ((t.forked s p).2.setLockset (t.forked s p).1.syscall_patch_lockset v).locksetOf
        t.syscall_patch_lockset = s.locksetOf t.syscall_patch_lockset) ∧
    (∀ v, ((t.forked s p).2.setLockset t.syscall_patch_lockset v).locksetOf
        (t.forked s p).1.syscall_patch_lockset = RemoteRWLock.new) := by
  obtain ⟨h1, h2, h3, h4, h5⟩ := hv
  have e1 : t.memory_map ≠ s.nextId := by omega
  have e2 : t.stub_pages ≠ s.nextId := by omega
  have e3 : t.unpatchable_syscalls ≠ s.nextId := by omega
  have e4 : t.patched_syscalls ≠ s.nextId := by omega
  have e5 : t.syscall_patch_lockset ≠ s.nextId := by omega
  refine ⟨?_, ?_, ?_, ?_, ?_, ⟨?_, ?_, ?_, ?_, ?_⟩,
    ?_, ?_, ?_, ?_, ?_, ?_, ?_, ?_, ?_, ?_⟩ <;>
    try intro v
  all_goals
    first
      | (simp [TracedTask.forked, Store.setMemMap, Store.setStubPages,
          Store.setUnpatchable, Store.setPatched, Store.setLockset, updFn,
          e1, e2, e3, e4, e5, Ne.symm e1, Ne.symm e2, Ne.symm e3, Ne.symm e4,
          Ne.symm e5])
      | (simp [TracedTask.forked] at v; omega)

/-- Witness for `forked_snapshots` at a concrete parent and store. -/
theorem forked_snapshots_witness :
    (⟨7, 7, 1, 7, false, none, TaskState.Ready, none, none, none, none,
      0, 0, 0, 0, 0⟩ : TracedTask).validIn
      ⟨fun _ => [], fun _ => [], fun _ => [4096], fun _ => [],
       fun _ => RemoteRWLock.new, 1⟩ ∧
    (TracedTask.forked
        ⟨7, 7, 1, 7, false, none, TaskState.Ready, none, none, none, none,
         0, 0, 0, 0, 0⟩
        ⟨fun _ => [], fun _ => [], fun _ => [4096], fun _ => [],
         fun _ => RemoteRWLock.new, 1⟩ 9).2.locksetOf
      (TracedTask.forked
        ⟨7, 7, 1, 7, false, none, TaskState.Ready, none, none, none, none,
         0, 0, 0, 0, 0⟩
        ⟨fun _ => [], fun _ => [], fun _ => [4096], fun _ => [],
         fun _ => RemoteRWLock.new, 1⟩ 9).1.syscall_patch_lockset
      = RemoteRWLock.new := by
  have hv : (⟨7, 7, 1, 7, false, none, TaskState.Ready, none, none, none, none,
      0, 0, 0, 0, 0⟩ : TracedTask).validIn
      ⟨fun _ => [], fun _ => [], fun _ => [4096], fun _ => [],
       fun _ => RemoteRWLock.new, 1⟩ := by
    refine ⟨?_, ?_, ?_, ?_, ?_⟩ <;> decide
  exact ⟨hv, (forked_snapshots _ _ 9 hv).2.2.2.2.1⟩

theorem allocate_extended_jumps_unpatchable (w : World) (t : TracedTask)
    (s s1 : Store) (e : Except Unit Nat)
    (h : allocate_extended_jumps w t s = some (s1, e)) :
    s1.unpatchableOf = s.unpatchableOf := by
  revert h
  unfold allocate_extended_jumps
  dsimp only
  repeat' split
  all_goals intro h
  all_goals cases h
  all_goals rfl

theorem extended_jump_from_to_unpatchable (w : World) (t : TracedTask)
    (s : Store) (hook : SyscallPatchHook) (rip : Nat) (s1 : Store)
    (e : Except Unit Nat)
    (h : extended_jump_from_to w t s hook rip = some (s1, e)) :
    s1.unpatchableOf = s.unpatchableOf := by
  revert h
  unfold extended_jump_from_to
  dsimp only
  repeat' split
  all_goals intro h
  all_goals cases h
  all_goals first
    | rfl
    | (rename (allocate_extended_jumps _ _ _ = _) => heq
       have h2 := allocate_extended_jumps_unpatchable _ _ _ _ _ heq
       exact h2)

theorem patch_syscall_with_unpatchable (w : World) (t : TracedTask)
    (s : Store) (hook : SyscallPatchHook) (rip : Nat) (b : Bool)
    (t' : TracedTask) (s' : Store)
    (h : patch_syscall_with w t s hook rip = some (b, t', s')) :
    s'.unpatchableOf = s.unpatchableOf := by
  revert h
  unfold patch_syscall_with
  dsimp only
  repeat' split
  all_goals intro h
  all_goals cases h
  all_goals first
    | rfl
    | (rename (extended_jump_from_to _ _ _ _ _ = _) => heq
       have h2 := extended_jump_from_to_unpatchable _ _ _ _ _ _ _ heq
       exact h2)

/-- C1: amended.  A refused patch attempt records nothing: the
unpatchable-site set is read but never written by the seccomp patching
path — `do_ptrace_seccomp` (and `patch_syscall_with` under it) leaves
every unpatchable slot of the store exactly as it found it, while the
refused tracee is continued via the kernel path. -/
theorem do_ptrace_seccomp_unpatchable_unchanged (w : World) (t : TracedTask)
    (s : Store) (σ : SystraceState) (r : TracedTask × Store × SystraceState)
    (h : do_ptrace_seccomp w t s σ = some r) :
    r.2.1.unpatchableOf = s.unpatchableOf := by
  revert h
  unfold do_ptrace_seccomp
  dsimp only
  repeat' split
  all_goals intro h
  all_goals cases h
  all_goals first
    | rfl
    | (rename (patch_syscall_with _ _ _ _ _ = _) => heq
       have h2 := patch_syscall_with_unpatchable _ _ _ _ _ _ _ _ heq
       exact h2)

/-- Witness for `do_ptrace_seccomp_unpatchable_unchanged`: a concrete
seccomp stop at a genuine syscall site with no matching hook. -/
theorem do_ptrace_seccomp_unpatchable_unchanged_witness :
    ∃ r, do_ptrace_seccomp
        ⟨fun a => if a = 0xffe then some 0x050f else some 0,
         some ⟨0x1000, 0, 0⟩, some 0, true, SkipOutcome.ok, true,
         none, none, true, true, [],
         ⟨some 0, true, true, true, true, true, false,
          some SYSTRACE_GLOBAL_STATE_ADDR, true⟩⟩
        ⟨7, 7, 1, 7, false, none, TaskState.Running, some 0x70000000,
         none, none, none, 0, 0, 0, 0, 0⟩
        ⟨fun _ => [], fun _ => [], fun _ => [], fun _ => [],
         fun _ => RemoteRWLock.new, 1⟩
        ⟨0, 0, 0, 0, 0, 0, 0⟩ = some r ∧
      r.2.1.unpatchableOf = (⟨fun _ => [], fun _ => [], fun _ => [],
        fun _ => [], fun _ => RemoteRWLock.new, 1⟩ : Store).unpatchableOf := by
  cases hE : do_ptrace_seccomp
      ⟨fun a => if a = 0xffe then some 0x050f else some 0,
       some ⟨0x1000, 0, 0⟩, some 0, true, SkipOutcome.ok, true,
       none, none, true, true, [],
       ⟨some 0, true, true, true, true, true, false,
        some SYSTRACE_GLOBAL_STATE_ADDR, true⟩⟩
      ⟨7, 7, 1, 7, false, none, TaskState.Running, some 0x70000000,
       none, none, none, 0, 0, 0, 0, 0⟩
      ⟨fun _ => [], fun _ => [], fun _ => [], fun _ => [],
       fun _ => RemoteRWLock.new, 1⟩
      ⟨0, 0, 0, 0, 0, 0, 0⟩ with
  | none =>
      have hs : (do_ptrace_seccomp
          ⟨fun a => if a = 0xffe then some 0x050f else some 0,
           some ⟨0x1000, 0, 0⟩, some 0, true, SkipOutcome.ok, true,
           none, none, true, true, [],
           ⟨some 0, true, true, true, true, true, false,
            some SYSTRACE_GLOBAL_STATE_ADDR, true⟩⟩
          ⟨7, 7, 1, 7, false, none, TaskState.Running, some 0x70000000,
           none, none, none, 0, 0, 0, 0, 0⟩
          ⟨fun _ => [], fun _ => [], fun _ => [], fun _ => [],
           fun _ => RemoteRWLock.new, 1⟩
          ⟨0, 0, 0, 0, 0, 0, 0⟩).isSome = true := rfl
      rw [hE] at hs
      cases hs
  | some r =>
      exact ⟨r, rfl, do_ptrace_seccomp_unpatchable_unchanged _ _ _ _ r hE⟩

/-- C1: counterexample.  At the same concrete refused attempt (seccomp
stop at a true syscall site, no hook matches), `do_ptrace_seccomp`
continues the tracee via the kernel path — the ptraced counter becomes 1
— yet the refused site 0x1000 is not recorded: the unpatchable set read
through the returned task's handle is still empty. -/
theorem seccomp_refusal_not_recorded :
    (do_ptrace_seccomp
        ⟨fun a => if a = 0xffe then some 0x050f else some 0,
         some ⟨0x1000, 0, 0⟩, some 0, true, SkipOutcome.ok, true,
         none, none, true, true, [],
         ⟨some 0, true, true, true, true, true, false,
          some SYSTRACE_GLOBAL_STATE_ADDR, true⟩⟩
        ⟨7, 7, 1, 7, false, none, TaskState.Running, some 0x70000000,
         none, none, none, 0, 0, 0, 0, 0⟩
        ⟨fun _ => [], fun _ => [], fun _ => [], fun _ => [],
         fun _ => RemoteRWLock.new, 1⟩
        ⟨0, 0, 0, 0, 0, 0, 0⟩).map
      (fun r => (r.2.1.unpatchableOf r.1.unpatchable_syscalls,
                 r.2.2.nr_syscalls_ptraced))
      = some ([], 1) := by
  rfl

/-- C10: amended.  `patch_syscall_with` releases the per-site write lock
on the success path: whenever it returns `Ok` (modelled `some (true, …)`),
the calling thread's write lock at the patched site is no longer held in
the resulting lockset.  (On the skip-syscall-failure and
stub-allocation-failure error paths the acquired write lock is leaked —
see the counterexample.) -/
theorem patch_syscall_with_releases_on_success (w : World) (t : TracedTask)
    (s : Store) (hook : SyscallPatchHook) (rip : Nat) (t' : TracedTask)
    (s' : Store)
    (h : patch_syscall_with w t s hook rip = some (true, t', s')) :
    (t.tid, rip) ∉ (s'.locksetOf t'.syscall_patch_lockset).writers := by
  revert h
  unfold patch_syscall_with
  dsimp only
  repeat' split
  all_goals intro h
  all_goals cases h
  all_goals
    simp [Store.setLockset, updFn, RemoteRWLock.try_write_unlock,
      List.mem_filter]

/-- Witness for `patch_syscall_with_releases_on_success`: a concrete
successful patch (stub page in range, catalog hook, lock free). -/
theorem patch_syscall_with_releases_on_success_witness :
    ∃ t' s', patch_syscall_with
        ⟨fun _ => some 0, some ⟨0x1000, 0, 0⟩, some 0, true, SkipOutcome.ok,
         true, none, none, true, true, [],
         ⟨some 0, true, true, true, true, true, false,
          some SYSTRACE_GLOBAL_STATE_ADDR, true⟩⟩
        ⟨7, 7, 1, 7, false, none, TaskState.Running, some 0x70000000,
         none, none, none, 0, 0, 0, 0, 0⟩
        ⟨fun _ => [], fun _ => [⟨0x2000, 0x1000, 192⟩], fun _ => [],
         fun _ => [], fun _ => RemoteRWLock.new, 1⟩
        ⟨false, [0x48, 0x3d, 0x01, 0xf0, 0xff, 0xff],
         "_syscall_hook_trampoline_48_3d_01_f0_ff_ff"⟩
        0x1000 = some (true, t', s') ∧
      (7, 0x1000) ∉ (s'.locksetOf t'.syscall_patch_lockset).writers := by
  cases hE : patch_syscall_with
      ⟨fun _ => some 0, some ⟨0x1000, 0, 0⟩, some 0, true, SkipOutcome.ok,
       true, none, none, true, true, [],
       ⟨some 0, true, true, true, true, true, false,
        some SYSTRACE_GLOBAL_STATE_ADDR, true⟩⟩
      ⟨7, 7, 1, 7, false, none, TaskState.Running, some 0x70000000,
       none, none, none, 0, 0, 0, 0, 0⟩
      ⟨fun _ => [], fun _ => [⟨0x2000, 0x1000, 192⟩], fun _ => [],
       fun _ => [], fun _ => RemoteRWLock.new, 1⟩
      ⟨false, [0x48, 0x3d, 0x01, 0xf0, 0xff, 0xff],
       "_syscall_hook_trampoline_48_3d_01_f0_ff_ff"⟩
      0x1000 with
  | none =>
      have hs : (patch_syscall_with
          ⟨fun _ => some 0, some ⟨0x1000, 0, 0⟩, some 0, true, SkipOutcome.ok,
           true, none, none, true, true, [],
           ⟨some 0, true, true, true, true, true, false,
            some SYSTRACE_GLOBAL_STATE_ADDR, true⟩⟩
          ⟨7, 7, 1, 7, false, none, TaskState.Running, some 0x70000000,
           none, none, none, 0, 0, 0, 0, 0⟩
          ⟨fun _ => [], fun _ => [⟨0x2000, 0x1000, 192⟩], fun _ => [],
           fun _ => [], fun _ => RemoteRWLock.new, 1⟩
          ⟨false, [0x48, 0x3d, 0x01, 0xf0, 0xff, 0xff],
           "_syscall_hook_trampoline_48_3d_01_f0_ff_ff"⟩
          0x1000).isSome = true := rfl
      rw [hE] at hs
      cases hs
  | some r =>
      obtain ⟨b, t', s'⟩ := r
      have hx : (patch_syscall_with
          ⟨fun _ => some 0, some ⟨0x1000, 0, 0⟩, some 0, true, SkipOutcome.ok,
           true, none, none, true, true, [],
           ⟨some 0, true, true, true, true, true, false,
            some SYSTRACE_GLOBAL_STATE_ADDR, true⟩⟩
          ⟨7, 7, 1, 7, false, none, TaskState.Running, some 0x70000000,
           none, none, none, 0, 0, 0, 0, 0⟩
          ⟨fun _ => [], fun _ => [⟨0x2000, 0x1000, 192⟩], fun _ => [],
           fun _ => [], fun _ => RemoteRWLock.new, 1⟩
          ⟨false, [0x48, 0x3d, 0x01, 0xf0, 0xff, 0xff],
           "_syscall_hook_trampoline_48_3d_01_f0_ff_ff"⟩
          0x1000).map (fun x => x.1) = some true := rfl
      rw [hE] at hx
      have hb : b = true := Option.some.inj hx
      subst hb
      exact ⟨t', s', rfl,
        patch_syscall_with_releases_on_success _ _ _ _ _ t' s' hE⟩

/-- C10: counterexample.  The same call with a failing skip-syscall step
returns `Err` after acquiring the write lock and never releases it: the
returned lockset still holds the (tid = 7, rip = 0x1000) write lock. -/
theorem patch_write_lock_leaked :
    (patch_syscall_with
        ⟨fun _ => some 0, some ⟨0x1000, 0, 0⟩, some 0, true, SkipOutcome.fail,
         true, none, none, true, true, [],
         ⟨some 0, true, true, true, true, true, false,
          some SYSTRACE_GLOBAL_STATE_ADDR, true⟩⟩
        ⟨7, 7, 1, 7, false, none, TaskState.Running, some 0x70000000,
         none, none, none, 0, 0, 0, 0, 0⟩
        ⟨fun _ => [], fun _ => [⟨0x2000, 0x1000, 192⟩], fun _ => [],
         fun _ => [], fun _ => RemoteRWLock.new, 1⟩
        ⟨false, [0x48, 0x3d, 0x01, 0xf0, 0xff, 0xff],
         "_syscall_hook_trampoline_48_3d_01_f0_ff_ff"⟩
        0x1000).map
      (fun r => (r.1,
        (r.2.2.locksetOf r.2.1.syscall_patch_lockset).writers.contains
          (7, 0x1000)))
      = some (false, true) := by
  rfl
